import Mathlib

/-!
# Verification of the CppInject service container

This development embeds the service registry and provider/scope runtime of the
CppInject repository (header `ServiceCollection` in `src/unnamed/part_001`, the
earlier non-synchronized variant in `src/unnamed/part_000`, and the lookup
surface in `src/CppInject/include/CppInject/IServiceProvider.h`) and proves the
specified properties about it.

Modelling decisions, all taken from the source:

* A `std::type_index` is an opaque comparable key, modelled as `Nat`.
* A materialized service instance is identified by the `Nat` id allocated for
  it when its `std::make_shared` call runs; `St.nextId` is the allocation
  counter.  A descriptor's `convert` function (`std::ref` narrowing for cached
  lifetimes, `static_pointer_cast` for transients) changes the static type of a
  handle but never which instance it denotes, so a converted handle is
  represented by the instance id itself.
* A factory closure (`ServiceDescription::create`) is, per
  `ServiceFactory<T>::create` / `createInternal`, a function that resolves each
  constructor argument through `serviceProvider.getService` in order and then
  constructs the instance.  It is therefore embedded as the ordered list of
  type keys it resolves (`ServiceDescription.deps`).
* The world state `St` carries the root provider's data, the data of every
  scope created so far, and three observation logs: `constructed` (which
  dependency handles each instance was built from), `invoked` (one entry per
  `desc.create` call, tagged with the owner/key/index it was invoked for) and
  `resolved` (one entry per cached-slot resolution, with the value returned).
* Execution is a fuel-indexed interpreter.  `none` means the C++ computation
  does not produce a value: an exception (`std::out_of_range` from `at`,
  `std::bad_any_cast` from a missing dependency), a deadlock (a `future.get`
  on a promise claimed further up the same call stack), undefined behaviour
  (`front()` on an empty vector), or exhausted fuel (divergence).
* Concurrency is modelled sequentially: `compare_exchange_strong` becomes the
  atomic `empty → claimed` transition of a slot, and a `shared_future::get`
  on a slot that is `claimed` (necessarily by the same thread, sequentially)
  blocks forever and is mapped to `none`.
-/

namespace CppInject

/-- Opaque type key (`std::type_index`).  Distinct keys never alias. -/
abbrev TypeKey := Nat

/-- The identity of one materialized service instance. -/
abbrev Value := Nat

/-- `ServiceCollection::ServiceType` (src/unnamed/part_001:254). -/
inductive ServiceType where
  | Singleton
  | Scoped
  | Transient
deriving DecidableEq, Repr

/-- `ServiceCollection::ServiceDescription` (src/unnamed/part_001:259): the
factory is embedded as the ordered list of type keys it resolves through the
provider it receives (see module comment); `type` is the lifetime. -/
structure ServiceDescription where
  deps : List TypeKey
  type : ServiceType
deriving DecidableEq, Repr

/-- `ServiceCollection::FactoryFunctionCollection` (src/unnamed/part_001:272). -/
abbrev FactoryFunctionCollection := List ServiceDescription

/-- The `_factories` map `std::unordered_map<std::type_index,
FactoryFunctionCollection>` (src/unnamed/part_001:273), as an association
list; `unordered_map` iteration order is never observed by the lookups the
claims are about, so the association-list order is irrelevant. -/
abbrev Registry := List (TypeKey × FactoryFunctionCollection)

/-- `unordered_map::find` on an association list. -/
def lookupKey {α : Type} : List (TypeKey × α) → TypeKey → Option α
  | [], _ => none
  | (k', v) :: rest, k => if k' = k then some v else lookupKey rest k

/-- One registration step, `ServiceCollection::addService`
(src/unnamed/part_001:410-426) and `addTransient` (:489-505): `emplace` the
key with an empty collection if absent, then `emplace_back` the descriptor. -/
def addEntry : Registry → TypeKey → ServiceDescription → Registry
  | [], k, d => [(k, [d])]
  | (k', l) :: rest, k, d =>
      if k' = k then (k', l ++ [d]) :: rest
      else (k', l) :: addEntry rest k d

/-- `ServiceCollection::build` (src/unnamed/part_001:525) after a sequence of
registrations starting from an empty collection. -/
def buildRegistry (regs : List (TypeKey × ServiceDescription)) : Registry :=
  regs.foldl (fun acc p => addEntry acc p.1 p.2) []

/-- The state of one `ConcurrentService` cell (src/unnamed/part_001:275):
`empty` = `initialized == false`; `claimed` = `initialized == true` but the
promise not yet fulfilled; `ready v` = the shared future holds instance `v`. -/
inductive SlotState where
  | empty
  | claimed
  | ready (v : Value)
deriving DecidableEq, Repr

/-- An `_instances` table, `std::unordered_map<std::type_index,
std::unique_ptr<ConcurrentService[]>>` (src/unnamed/part_001:287). -/
abbrev InstanceTable := List (TypeKey × List SlotState)

/-- `_instances.emplace(key, ...)` followed by allocating the slot array of
the collection's size when the key was actually inserted
(src/unnamed/part_001:539-543). -/
def tableEnsure : InstanceTable → TypeKey → Nat → InstanceTable
  | [], k, n => [(k, List.replicate n SlotState.empty)]
  | (k', l) :: rest, k, n =>
      if k' = k then (k', l) :: rest
      else (k', l) :: tableEnsure rest k n

/-- Overwrite slot `i` of key `k` (a `compare_exchange_strong` or a
`promise::set_value` on that cell). -/
def tableSet : InstanceTable → TypeKey → Nat → SlotState → InstanceTable
  | [], _, _, _ => []
  | (k', l) :: rest, k, i, s =>
      if k' = k then (k', l.set i s) :: rest
      else (k', l) :: tableSet rest k i s

/-- Read slot `i` of key `k`; `none` when the key or index is absent. -/
def tableGet (t : InstanceTable) (k : TypeKey) (i : Nat) : Option SlotState :=
  match lookupKey t k with
  | none => none
  | some l => l.get? i

/-- The mutable data of one owner (the root `ServiceProvider` or one
`ScopedServiceProvider`): its `_instances` table and its
`_initializationOrder` log (src/unnamed/part_001:284-296). -/
structure OwnerData where
  instances : InstanceTable
  initOrder : List Value
deriving DecidableEq, Repr

def OwnerData.emptyData : OwnerData := ⟨[], []⟩

/-- An owner of instance slots: the root provider or the scope with the given
creation index. -/
inductive Owner where
  | root
  | scope (sid : Nat)
deriving DecidableEq, Repr

/-- The whole world: the root provider, every scope created from it, the
allocation counter, and the observation logs (see module comment). -/
structure St where
  nextId : Nat
  rootData : OwnerData
  scopes : List OwnerData
  constructed : List (Value × List Value)
  invoked : List (Owner × TypeKey × Nat)
  resolved : List (Owner × TypeKey × Nat × Value)
deriving DecidableEq, Repr

/-- The state right after `ServiceCollection::build`. -/
def initialSt : St := ⟨0, OwnerData.emptyData, [], [], [], []⟩

def getOwnerData (st : St) : Owner → Option OwnerData
  | Owner.root => some st.rootData
  | Owner.scope sid => st.scopes.get? sid

def setOwnerData (st : St) : Owner → OwnerData → St
  | Owner.root, d => { st with rootData := d }
  | Owner.scope sid, d => { st with scopes := st.scopes.set sid d }

/-- The state of the `ConcurrentService` cell for `(owner, key, index)`;
`none` when the owner, key or index does not exist. -/
def slotAt (st : St) (o : Owner) (k : TypeKey) (i : Nat) : Option SlotState :=
  (getOwnerData st o).bind fun d => tableGet d.instances k i

/-- `ServiceProvider::createScope` (src/unnamed/part_001:581): a fresh
`ScopedServiceProvider` with empty `_instances` and `_initializationOrder`.
Returns the new scope's id. -/
def createScope (st : St) : Nat × St :=
  (st.scopes.length, { st with scopes := st.scopes ++ [OwnerData.emptyData] })

/-- The requests the mutually recursive resolution functions of
`src/unnamed/part_001` exchange; the single interpreter `exec` below is
structurally recursive on its fuel so that every clause evaluates by kernel
reduction.
* `get o k`   — `getService(type)` on owner `o` (:562 for the root, :601 for a scope);
* `gets o k`  — `getServices(type)` on owner `o` (:570 / :615);
* `help k descs owner ctx i` — the static
  `ScopedServiceProvider::getService(factories, spForThisService, spForDependentServices, index)`
  helper (:529-560);
* `fact ctx ds` — one invocation of a descriptor's `create` closure, which
  resolves the listed dependencies through `ctx` and constructs the instance;
* `deps ctx ds` — the recursive dependency-resolution loop of
  `ServiceFactory<T>::createInternal`;
* `multi o k descs i` — the `for` loop of `getServices` from index `i` up. -/
inductive Req where
  | get (o : Owner) (k : TypeKey)
  | gets (o : Owner) (k : TypeKey)
  | help (k : TypeKey) (descs : FactoryFunctionCollection) (owner ctx : Owner) (i : Nat)
  | fact (ctx : Owner) (ds : List TypeKey)
  | deps (ctx : Owner) (ds : List TypeKey)
  | multi (o : Owner) (k : TypeKey) (descs : FactoryFunctionCollection) (i : Nat)
deriving DecidableEq, Repr

/-- Results: `one v` for the single-service entry points (`none` is the empty
`std::any` returned for an unregistered key), `many vs` for `getServices`. -/
inductive Res where
  | one (v : Option Value)
  | many (vs : List Value)
deriving DecidableEq, Repr

/-- The owner a scope routes a key to, by the key's FIRST descriptor's
lifetime (src/unnamed/part_001:606-611): its own table for Scoped, the
parent root provider otherwise. -/
def scopeOwner (sid : Nat) (d : ServiceDescription) : Owner :=
  if d.type = ServiceType.Scoped then Owner.scope sid else Owner.root

/-- The owner the `getServices` loop routes index `i`'s descriptor to: the
root always routes to itself (:575-577); a scope routes each descriptor by
that descriptor's lifetime (:621-625). -/
def multiOwner (o : Owner) (d : ServiceDescription) : Owner :=
  match o with
  | Owner.root => Owner.root
  | Owner.scope sid => scopeOwner sid d

/-- The resolution algorithm of `src/unnamed/part_001`, one clause per source
function (see `Req`).  Fuel-indexed; every recursive call runs at fuel one
less, and fuel `0` means the computation did not finish. -/
def exec (reg : Registry) : Nat → Req → St → Option (Res × St)
  | 0, _, _ => none
  | Nat.succ f, Req.get Owner.root k, st =>
      -- ServiceProvider::getService (:562): find the key, return an empty
      -- any if absent, else resolve the LAST descriptor with the root as
      -- both the caching owner and the resolution context.
      match lookupKey reg k with
      | none => some (Res.one none, st)
      | some descs =>
          match exec reg f (Req.help k descs Owner.root Owner.root (descs.length - 1)) st with
          | some (Res.one (some v), st') => some (Res.one (some v), st')
          | _ => none
  | Nat.succ f, Req.get (Owner.scope sid) k, st =>
      -- ScopedServiceProvider::getService (:601): find the key in the
      -- parent's factories; route by the FIRST descriptor's lifetime
      -- (front()), resolving the LAST descriptor, with this scope as the
      -- resolution context.
      match lookupKey reg k with
      | none => some (Res.one none, st)
      | some descs =>
          match descs.head? with
          | none => none
          | some d =>
              match exec reg f (Req.help k descs (scopeOwner sid d) (Owner.scope sid) (descs.length - 1)) st with
              | some (Res.one (some v), st') => some (Res.one (some v), st')
              | _ => none
  | Nat.succ f, Req.gets o k, st =>
      -- getServices (:570 root, :615 scope): empty vector if the key is
      -- absent, else resolve every index in order (the per-index routing of
      -- the scope overload lives in the `multi` clause).
      match lookupKey reg k with
      | none => some (Res.many [], st)
      | some descs =>
          match exec reg f (Req.multi o k descs 0) st with
          | some (Res.many vs, st') => some (Res.many vs, st')
          | _ => none
  | Nat.succ f, Req.multi o k descs i, st =>
      match descs.get? i with
      | none => some (Res.many [], st)
      | some d =>
          match exec reg f (Req.help k descs (multiOwner o d) o i) st with
          | some (Res.one (some v), st1) =>
              match exec reg f (Req.multi o k descs (i + 1)) st1 with
              | some (Res.many vs, st2) => some (Res.many (v :: vs), st2)
              | _ => none
          | _ => none
  | Nat.succ f, Req.help k descs owner ctx i, st =>
      -- The static helper (:529-560).
      match descs.get? i with
      | none => none
      | some desc =>
          if desc.type = ServiceType.Transient then
            -- :556: desc.convert(desc.create(serviceProviderForDependentServices))
            match exec reg f (Req.fact ctx desc.deps)
                    { st with invoked := st.invoked ++ [(owner, k, i)] } with
            | some (Res.one (some v), st') => some (Res.one (some v), st')
            | _ => none
          else
            match getOwnerData st owner with
            | none => none
            | some od =>
                -- :539-543: emplace the slot array for the key, sized to the
                -- descriptor collection, when absent.
                let od1 : OwnerData := { od with instances := tableEnsure od.instances k descs.length }
                let st1 := setOwnerData st owner od1
                match tableGet od1.instances k i with
                | none => none
                | some (SlotState.ready v) =>
                    -- :555 on a slot someone already published: read the
                    -- shared future and convert.
                    some (Res.one (some v), { st1 with resolved := st1.resolved ++ [(owner, k, i, v)] })
                | some SlotState.claimed =>
                    -- the CAS fails and the promise is unfulfilled: the
                    -- (sequentially, same) thread blocks in future.get()
                    none
                | some SlotState.empty =>
                    -- :547: compare_exchange_strong succeeds; :549: invoke
                    -- desc.create against the dependent-services provider.
                    let st2 := setOwnerData
                        { st1 with invoked := st1.invoked ++ [(owner, k, i)] } owner
                        { od1 with instances := tableSet od1.instances k i SlotState.claimed }
                    match exec reg f (Req.fact ctx desc.deps) st2 with
                    | some (Res.one (some v), st3) =>
                        match getOwnerData st3 owner with
                        | none => none
                        | some od3 =>
                            -- :548 set_value publishes the instance; :550-553
                            -- append it to _initializationOrder.
                            let od4 : OwnerData :=
                              { instances := tableSet od3.instances k i (SlotState.ready v),
                                initOrder := od3.initOrder ++ [v] }
                            some (Res.one (some v),
                              { (setOwnerData st3 owner od4) with
                                  resolved := (setOwnerData st3 owner od4).resolved ++ [(owner, k, i, v)] })
                    | _ => none
  | Nat.succ f, Req.fact ctx ds, st =>
      -- ServiceFactory<T>::create: resolve the constructor arguments, then
      -- make_shared a fresh instance from them.
      match exec reg f (Req.deps ctx ds) st with
      | some (Res.many vs, st') =>
          some (Res.one (some st'.nextId),
            { st' with
                nextId := st'.nextId + 1,
                constructed := st'.constructed ++ [(st'.nextId, vs)] })
      | _ => none
  | Nat.succ _, Req.deps _ [], st => some (Res.many [], st)
  | Nat.succ f, Req.deps ctx (d :: ds), st =>
      -- ServiceFactory<T>::getService: a dependency that resolves to an
      -- empty any makes the any_cast throw, so the whole construction fails.
      match exec reg f (Req.get ctx d) st with
      | some (Res.one (some v), st1) =>
          match exec reg f (Req.deps ctx ds) st1 with
          | some (Res.many vs, st2) => some (Res.many (v :: vs), st2)
          | _ => none
      | _ => none

/-- `getService(std::type_index)` on owner `o` — the `IServiceProvider`
virtual entry point; `some (none, st)` is the empty `std::any`. -/
def getService (reg : Registry) (fuel : Nat) (o : Owner) (k : TypeKey) (st : St) :
    Option (Option Value × St) :=
  match exec reg fuel (Req.get o k) st with
  | some (Res.one v, st') => some (v, st')
  | _ => none

/-- `getServices(std::type_index)` on owner `o`. -/
def getServices (reg : Registry) (fuel : Nat) (o : Owner) (k : TypeKey) (st : St) :
    Option (List Value × St) :=
  match exec reg fuel (Req.gets o k) st with
  | some (Res.many vs, st') => some (vs, st')
  | _ => none

/-- `IServiceProvider::getRequiredService<TService>`
(src/CppInject/include/CppInject/IServiceProvider.h): call `getService`,
return the instance when present, otherwise throw a `std::logic_error` whose
message is the type's name followed by the fixed suffix. -/
def getRequiredService (reg : Registry) (fuel : Nat) (o : Owner) (k : TypeKey)
    (typeName : String) (st : St) : Option (Except String (Value × St)) :=
  match getService reg fuel o k st with
  | none => none
  | some (none, _) =>
      some (Except.error
        (typeName ++ " has not been registered as a singleton or scoped service."))
  | some (some v, st') => some (Except.ok (v, st'))

/-- One externally driven operation on the built provider. -/
inductive Op where
  | call (o : Owner) (k : TypeKey)
  | callAll (o : Owner) (k : TypeKey)
  | newScope
deriving DecidableEq, Repr

def runOp (reg : Registry) (fuel : Nat) (op : Op) (st : St) : Option St :=
  match op with
  | Op.call o k => (getService reg fuel o k st).map Prod.snd
  | Op.callAll o k => (getServices reg fuel o k st).map Prod.snd
  | Op.newScope => some (createScope st).2

/-- Run a sequence of operations; `none` as soon as one fails. -/
def runOps (reg : Registry) (fuel : Nat) : List Op → St → Option St
  | [], st => some st
  | op :: ops, st => (runOp reg fuel op st).bind (runOps reg fuel ops)

/-- The `while (!_initializationOrder.empty()) _initializationOrder.pop_back()`
loop of both destructors (src/unnamed/part_001:586-589 and :595-599): each
`pop_back` releases the last logged instance.  The fuel is the list length,
supplied by `destroyTrace`. -/
def popBackLoop : Nat → List Value → List Value
  | 0, _ => []
  | Nat.succ f, l =>
      match l.getLast? with
      | none => []
      | some x => x :: popBackLoop f l.dropLast

/-- The sequence of instances released, in order, when a completion-order log
is drained by the destructor loop. -/
def destroyTrace (l : List Value) : List Value :=
  popBackLoop l.length l

/-- `~ServiceProvider` / `~ScopedServiceProvider`: clear `_instances` (the
slots only hold extra handles to the logged instances), then drain the
completion-order log back to front.  Returns the teardown order. -/
def destructorTrace (d : OwnerData) : List Value :=
  destroyTrace d.initOrder

/-- All ways to insert `x` into a list (helper for `allPerms`). -/
def insertEverywhere {A : Type} (x : A) : List A → List (List A)
  | [] => [[x]]
  | y :: ys => (x :: y :: ys) :: (insertEverywhere x ys).map (fun l => y :: l)

/-- Every permutation of a list, by structural recursion (used to quantify a
scenario over every registration order). -/
def allPerms {A : Type} : List A → List (List A)
  | [] => [[]]
  | x :: xs => (allPerms xs).flatMap (insertEverywhere x)

/-!
## The earlier non-synchronized implementation (src/unnamed/part_000)

That variant stores plain `std::vector<std::any>` instance arrays (no atomics,
no futures) and — the observable difference — its single-value `getService`
entry points pass descriptor index `0` to the resolution helper
(src/unnamed/part_000:661 and :699-705) where the current implementation
passes `size() - 1`.
-/

/-- A legacy `_instances` table:
`std::unordered_map<std::type_index, std::vector<std::any>>`; a cell is
`none` while its `std::any` is empty. -/
abbrev LegacyTable := List (TypeKey × List (Option Value))

structure LegacyOwnerData where
  instances : LegacyTable
  initOrder : List Value
deriving DecidableEq, Repr

def LegacyOwnerData.emptyData : LegacyOwnerData := ⟨[], []⟩

structure LegacySt where
  nextId : Nat
  rootData : LegacyOwnerData
  scopes : List LegacyOwnerData
  constructed : List (Value × List Value)
deriving DecidableEq, Repr

def legacyInitialSt : LegacySt := ⟨0, LegacyOwnerData.emptyData, [], []⟩

/-- Legacy `_instances.emplace(key, {})` + `resize(size)` when inserted
(src/unnamed/part_000:640-643). -/
def ltableEnsure : LegacyTable → TypeKey → Nat → LegacyTable
  | [], k, n => [(k, List.replicate n none)]
  | (k', l) :: rest, k, n =>
      if k' = k then (k', l) :: rest
      else (k', l) :: ltableEnsure rest k n

/-- Legacy `vector::emplace(next(begin, index), value)`
(src/unnamed/part_000:645-647): an insertion that shifts the tail. -/
def ltableInsertAt : LegacyTable → TypeKey → Nat → Value → LegacyTable
  | [], _, _, _ => []
  | (k', l) :: rest, k, i, v =>
      if k' = k then (k', l.take i ++ some v :: l.drop i) :: rest
      else (k', l) :: ltableInsertAt rest k i v

def ltableGet (t : LegacyTable) (k : TypeKey) (i : Nat) : Option (Option Value) :=
  match lookupKey t k with
  | none => none
  | some l => l.get? i

def getLegacyOwnerData (st : LegacySt) : Owner → Option LegacyOwnerData
  | Owner.root => some st.rootData
  | Owner.scope sid => st.scopes.get? sid

def setLegacyOwnerData (st : LegacySt) : Owner → LegacyOwnerData → LegacySt
  | Owner.root, d => { st with rootData := d }
  | Owner.scope sid, d => { st with scopes := st.scopes.set sid d }

/-- Requests of the legacy interpreter; only the single-value lookup path
(which claim C10 is about) is embedded.  `help` is
`ServiceProvider::getService(factories, providerInstances, initializationOrder,
serviceProvider, index)` (src/unnamed/part_000:632-655). -/
inductive LReq where
  | get (o : Owner) (k : TypeKey)
  | help (k : TypeKey) (descs : FactoryFunctionCollection) (owner ctx : Owner) (i : Nat)
  | fact (ctx : Owner) (ds : List TypeKey)
  | deps (ctx : Owner) (ds : List TypeKey)
deriving DecidableEq, Repr

/-- Results of the legacy interpreter: `one` for lookups and factory calls,
`many` for the dependency-resolution loop. -/
inductive LRes where
  | one (v : Option Value)
  | many (vs : List Value)
deriving DecidableEq, Repr

/-- The legacy resolution algorithm (src/unnamed/part_000). -/
def legacyExec (reg : Registry) : Nat → LReq → LegacySt → Option (LRes × LegacySt)
  | 0, _, _ => none
  | Nat.succ f, LReq.get Owner.root k, st =>
      -- Legacy ServiceProvider::getService (:657-661): absent key yields an
      -- empty any; otherwise resolve descriptor index 0.
      match lookupKey reg k with
      | none => some (LRes.one none, st)
      | some descs =>
          match legacyExec reg f (LReq.help k descs Owner.root Owner.root 0) st with
          | some (LRes.one (some v), st') => some (LRes.one (some v), st')
          | _ => none
  | Nat.succ f, LReq.get (Owner.scope sid) k, st =>
      -- Legacy ScopedServiceProvider::getService (:694-705): route the table
      -- by the FIRST descriptor's lifetime, resolve descriptor index 0.
      match lookupKey reg k with
      | none => some (LRes.one none, st)
      | some descs =>
          match descs.head? with
          | none => none
          | some d =>
              match legacyExec reg f (LReq.help k descs (scopeOwner sid d) (Owner.scope sid) 0) st with
              | some (LRes.one (some v), st') => some (LRes.one (some v), st')
              | _ => none
  | Nat.succ f, LReq.help k descs owner ctx i, st =>
      match descs.get? i with
      | none => none
      | some desc =>
          if desc.type = ServiceType.Transient then
            match legacyExec reg f (LReq.fact ctx desc.deps) st with
            | some (LRes.one (some v), st') => some (LRes.one (some v), st')
            | _ => none
          else
            match getLegacyOwnerData st owner with
            | none => none
            | some od =>
                let od1 : LegacyOwnerData := { od with instances := ltableEnsure od.instances k descs.length }
                let st1 := setLegacyOwnerData st owner od1
                match ltableGet od1.instances k i with
                | none => none
                | some (some v) =>
                    -- :644 `at(index).has_value()` holds: convert and return.
                    some (LRes.one (some v), st1)
                | some none =>
                    -- :645-648: run desc.create, then insert the result at
                    -- position `index` (the recursion inside create may have
                    -- modified the table, so the insertion acts on the table
                    -- as it is after create returns), log it, and return
                    -- `at(index)` of the updated vector, which is the value
                    -- just inserted.
                    match legacyExec reg f (LReq.fact ctx desc.deps) st1 with
                    | some (LRes.one (some v), st2) =>
                        match getLegacyOwnerData st2 owner with
                        | none => none
                        | some od2 =>
                            let od3 : LegacyOwnerData :=
                              { instances := ltableInsertAt od2.instances k i v,
                                initOrder := od2.initOrder ++ [v] }
                            some (LRes.one (some v), setLegacyOwnerData st2 owner od3)
                    | _ => none
  | Nat.succ f, LReq.fact ctx ds, st =>
      match legacyExec reg f (LReq.deps ctx ds) st with
      | some (LRes.many vs, st') =>
          some (LRes.one (some st'.nextId),
            { st' with
                nextId := st'.nextId + 1,
                constructed := st'.constructed ++ [(st'.nextId, vs)] })
      | _ => none
  | Nat.succ _, LReq.deps _ [], st => some (LRes.many [], st)
  | Nat.succ f, LReq.deps ctx (d :: ds), st =>
      match legacyExec reg f (LReq.get ctx d) st with
      | some (LRes.one (some v), st1) =>
          match legacyExec reg f (LReq.deps ctx ds) st1 with
          | some (LRes.many vs, st2) => some (LRes.many (v :: vs), st2)
          | _ => none
      | _ => none

/-- Single-value `getService` of the legacy provider. -/
def legacyGetService (reg : Registry) (fuel : Nat) (o : Owner) (k : TypeKey) (st : LegacySt) :
    Option (Option Value × LegacySt) :=
  match legacyExec reg fuel (LReq.get o k) st with
  | some (LRes.one v, st') => some (v, st')
  | _ => none

/-- The observable outcome of resolving exactly one descriptor of key `k`
through the static helper with the given caching owner, resolution context
and index (used to characterize which index the entry points select). -/
def resolveIndex (reg : Registry) (f : Nat) (k : TypeKey) (descs : FactoryFunctionCollection)
    (owner ctx : Owner) (i : Nat) (st : St) : Option (Option Value × St) :=
  match exec reg f (Req.help k descs owner ctx i) st with
  | some (Res.one (some v), st') => some (some v, st')
  | _ => none

/-- Legacy counterpart of `resolveIndex`. -/
def legacyResolveIndex (reg : Registry) (f : Nat) (k : TypeKey) (descs : FactoryFunctionCollection)
    (owner ctx : Owner) (i : Nat) (st : LegacySt) : Option (Option Value × LegacySt) :=
  match legacyExec reg f (LReq.help k descs owner ctx i) st with
  | some (LRes.one (some v), st') => some (some v, st')
  | _ => none

/-!
## Concrete scenarios

Closed registries and states the claims are evaluated on.
-/

/-- A chain of interdependent Singletons: D (key 3) depends on C (key 2)
depends on B (key 1) depends on A (key 0). -/
def chainRegs : List (TypeKey × ServiceDescription) :=
  [(0, ⟨[], ServiceType.Singleton⟩), (1, ⟨[0], ServiceType.Singleton⟩),
   (2, ⟨[1], ServiceType.Singleton⟩), (3, ⟨[2], ServiceType.Singleton⟩)]

/-- Key 1 holds two Singleton descriptors, distinguishable by their
dependencies (the second one depends on key 0). -/
def regTwoDescs : Registry := buildRegistry
  [(0, ⟨[], ServiceType.Singleton⟩), (1, ⟨[], ServiceType.Singleton⟩),
   (1, ⟨[0], ServiceType.Singleton⟩)]

/-- A three-key Singleton dependency chain, every key holding exactly one
descriptor. -/
def regChain3 : Registry := buildRegistry
  [(0, ⟨[], ServiceType.Singleton⟩), (1, ⟨[0], ServiceType.Singleton⟩),
   (2, ⟨[1], ServiceType.Singleton⟩)]

/-- Key 0 holds a Scoped descriptor followed by a Singleton descriptor, so
single-value lookup resolves the Singleton one while a scope routes the key
by the Scoped front descriptor. -/
def regMixedScopedFirst : Registry :=
  buildRegistry [(0, ⟨[], ServiceType.Scoped⟩), (0, ⟨[], ServiceType.Singleton⟩)]

/-- Key 7 holds a Singleton descriptor followed by a Scoped descriptor, so
single-value lookup resolves the Scoped one while a scope routes the key by
the Singleton front descriptor. -/
def regMixedSingletonFirst : Registry :=
  buildRegistry [(7, ⟨[], ServiceType.Singleton⟩), (7, ⟨[], ServiceType.Scoped⟩)]

/-- A Transient service (key 1) depending on a Scoped service (key 0). -/
def regTransientDep : Registry :=
  buildRegistry [(0, ⟨[], ServiceType.Scoped⟩), (1, ⟨[0], ServiceType.Transient⟩)]

/-- A dependency-free Transient service under key 1. -/
def regTransient : Registry := buildRegistry [(1, ⟨[], ServiceType.Transient⟩)]

/-- The P7 shape: a Singleton (key 0), a Scoped service depending on it
(key 1), and a Transient service depending on both (key 2). -/
def regP7 : Registry := buildRegistry
  [(0, ⟨[], ServiceType.Singleton⟩), (1, ⟨[0], ServiceType.Scoped⟩),
   (2, ⟨[1, 0], ServiceType.Transient⟩)]

/-- Implementations X, Y, Z registered in that order for interface key 5;
they are distinguishable by their dependency lists ([], [9], [9, 9]). -/
def regXYZ : Registry := buildRegistry
  [(9, ⟨[], ServiceType.Singleton⟩), (5, ⟨[], ServiceType.Singleton⟩),
   (5, ⟨[9], ServiceType.Singleton⟩), (5, ⟨[9, 9], ServiceType.Singleton⟩)]

/-- The built provider with one scope created. -/
def stOneScope : St := (createScope initialSt).2

/-- The built provider with two scopes created (ids 0 and 1). -/
def stTwoScopes : St := (createScope (createScope initialSt).2).2

def regC1 : Registry := buildRegistry [(0, ⟨[], ServiceType.Singleton⟩)]

def opsC1 : List Op :=
  [Op.call Owner.root 0, Op.call Owner.root 0, Op.callAll Owner.root 0]


def ReqAvoids (s : Nat) : Req → Prop
  | Req.get o _ => o ≠ Owner.scope s
  | Req.gets o _ => o ≠ Owner.scope s
  | Req.help _ _ owner ctx _ => owner ≠ Owner.scope s ∧ ctx ≠ Owner.scope s
  | Req.fact ctx _ => ctx ≠ Owner.scope s
  | Req.deps ctx _ => ctx ≠ Owner.scope s
  | Req.multi o _ _ _ => o ≠ Owner.scope s


def regSco : Registry := buildRegistry [(0, ⟨[], ServiceType.Scoped⟩)]

def stC3a : St := ((getService regSco 20 (Owner.scope 0) 0 stTwoScopes).getD (none, initialSt)).2

def stC3b : St := ((getService regSco 20 (Owner.scope 1) 0 stC3a).getD (none, initialSt)).2

def stC8a : St := ((getService regSco 20 Owner.root 0 initialSt).getD (none, initialSt)).2

def stC6 : St := ((getService regTransient 10 Owner.root 1 initialSt).getD (none, initialSt)).2


/-!
## Invariant definitions
-/

/-- Occurrences of one (owner, key, index) triple in the invocation log. -/
def countTriple (l : List (Owner × TypeKey × Nat)) (t : Owner × TypeKey × Nat) : Nat :=
  match l with
  | [] => 0
  | e :: rest => (if e = t then 1 else 0) + countTriple rest t

/-- 1 when a slot has been claimed or published, 0 otherwise. -/
def liveCount : Option SlotState → Nat
  | some SlotState.claimed => 1
  | some (SlotState.ready _) => 1
  | _ => 0

/-- Key `k` holds, at index `i`, a registered descriptor with a cached
(Singleton or Scoped) lifetime. -/
def cachedAt (reg : Registry) (k : TypeKey) (i : Nat) : Prop :=
  ∃ descs desc, lookupKey reg k = some descs ∧ descs.get? i = some desc ∧
    desc.type ≠ ServiceType.Transient

/-- The state invariant maintained by every successful operation:
1. for every cached-lifetime (key, index) and every owner, the factory has
   been invoked exactly once if that owner's slot is claimed or published and
   never otherwise;
2. every logged resolution of a cached slot returned exactly the instance the
   slot now publishes;
3. every published instance id was allocated (is below the counter);
4. every id in any completion-order log was allocated. -/
def Inv (reg : Registry) (st : St) : Prop :=
  (∀ o k i, cachedAt reg k i →
      countTriple st.invoked (o, k, i) = liveCount (slotAt st o k i)) ∧
  (∀ o k i v, (o, k, i, v) ∈ st.resolved →
      slotAt st o k i = some (SlotState.ready v)) ∧
  (∀ o k i v, slotAt st o k i = some (SlotState.ready v) → v < st.nextId) ∧
  (∀ o d, getOwnerData st o = some d → ∀ v ∈ d.initOrder, v < st.nextId)

/-- Relation between the states before and after one successful `exec` call:
the id counter is monotone, no scope is created or destroyed, published slots
stay published with the same instance, and a slot claimed before the call is
still (only) claimed after it — the publishing store is run by the claiming
stack frame after the call returns. -/
def ExecOk (st st' : St) : Prop :=
  st.nextId ≤ st'.nextId ∧
  st'.scopes.length = st.scopes.length ∧
  (∀ o k i v, slotAt st o k i = some (SlotState.ready v) →
      slotAt st' o k i = some (SlotState.ready v)) ∧
  (∀ o k i, slotAt st o k i = some SlotState.claimed →
      slotAt st' o k i = some SlotState.claimed)

/-- Well-formed requests: the descriptor collection a helper request carries
is the one registered for its key (the interpreter only ever builds such
requests). -/
def ReqWf (reg : Registry) : Req → Prop
  | Req.help k descs _ _ _ => lookupKey reg k = some descs
  | Req.multi _ k descs _ => lookupKey reg k = some descs
  | _ => True

/-!
## Registry lemmas
-/

theorem addEntry_nonempty (reg : Registry) (k : TypeKey) (d : ServiceDescription)
    (h : ∀ p ∈ reg, p.2 ≠ []) : ∀ p ∈ addEntry reg k d, p.2 ≠ [] := by
  induction reg with
  | nil => simp [addEntry]
  | cons hd tl ih =>
      obtain ⟨k', l⟩ := hd
      simp only [addEntry]
      by_cases hk : k' = k
      · simp only [hk, if_pos rfl]
        intro p hp
        rcases List.mem_cons.mp hp with h1 | h2
        · subst h1; simp
        · exact h p (List.mem_cons_of_mem _ h2)
      · simp only [if_neg hk]
        intro p hp
        rcases List.mem_cons.mp hp with h1 | h2
        · subst h1; exact h (k', l) (List.mem_cons_self _ _)
        · exact ih (fun q hq => h q (List.mem_cons_of_mem _ hq)) p h2

theorem buildRegistry_loop_nonempty (regs : List (TypeKey × ServiceDescription))
    (acc : Registry) (hacc : ∀ p ∈ acc, p.2 ≠ []) :
    ∀ p ∈ regs.foldl (fun acc p => addEntry acc p.1 p.2) acc, p.2 ≠ [] := by
  induction regs generalizing acc with
  | nil => simpa using hacc
  | cons hd tl ih =>
      simp only [List.foldl_cons]
      exact ih _ (addEntry_nonempty acc hd.1 hd.2 hacc)

theorem lookupKey_mem {α : Type} (l : List (TypeKey × α)) (k : TypeKey) (v : α)
    (h : lookupKey l k = some v) : (k, v) ∈ l := by
  induction l with
  | nil => simp [lookupKey] at h
  | cons hd tl ih =>
      obtain ⟨k', v'⟩ := hd
      simp only [lookupKey] at h
      by_cases hk : k' = k
      · subst hk
        rw [if_pos rfl] at h
        cases h
        exact List.mem_cons_self _ _
      · simp only [if_neg hk] at h
        exact List.mem_cons_of_mem _ (ih h)

/-!
## Table and state lemmas
-/

theorem replicate_get? {α : Type} (n i : Nat) (a : α) :
    (List.replicate n a).get? i = if i < n then some a else none := by
  induction n generalizing i with
  | zero => simp
  | succ n ih =>
      cases i with
      | zero => simp [List.replicate]
      | succ i => simpa [List.replicate, Nat.succ_lt_succ_iff] using ih i

theorem set_get?_self {α : Type} (l : List α) (i : Nat) (x : α)
    (h : l.get? i = some x) : l.set i x = l := by
  induction l generalizing i with
  | nil => simp [List.get?] at h
  | cons hd tl ih =>
      cases i with
      | zero =>
          simp only [List.get?, Option.some.injEq] at h
          subst h
          rfl
      | succ i =>
          simp only [List.get?] at h
          simp only [List.set]
          rw [ih i h]

theorem tableEnsure_present (t : InstanceTable) (k : TypeKey) (n : Nat)
    (l : List SlotState) (h : lookupKey t k = some l) : tableEnsure t k n = t := by
  induction t with
  | nil => simp [lookupKey] at h
  | cons hd tl ih =>
      obtain ⟨k', l'⟩ := hd
      simp only [lookupKey] at h
      simp only [tableEnsure]
      by_cases hk : k' = k
      · simp [hk]
      · rw [if_neg hk] at h
        simp [hk, ih h]

theorem lookupKey_tableEnsure_self_absent (t : InstanceTable) (k : TypeKey) (n : Nat)
    (h : lookupKey t k = none) :
    lookupKey (tableEnsure t k n) k = some (List.replicate n SlotState.empty) := by
  induction t with
  | nil => simp [lookupKey, tableEnsure]
  | cons hd tl ih =>
      obtain ⟨k', l'⟩ := hd
      simp only [lookupKey] at h
      by_cases hk : k' = k
      · rw [if_pos hk] at h; exact absurd h (by simp)
      · rw [if_neg hk] at h
        simp only [tableEnsure, if_neg hk, lookupKey]
        exact ih h

theorem lookupKey_tableEnsure_other (t : InstanceTable) (k k' : TypeKey) (n : Nat)
    (h : k' ≠ k) : lookupKey (tableEnsure t k n) k' = lookupKey t k' := by
  have hne : k ≠ k' := fun hh => h hh.symm
  induction t with
  | nil =>
      simp only [tableEnsure, lookupKey]
      rw [if_neg hne]
  | cons hd tl ih =>
      obtain ⟨k0, l0⟩ := hd
      simp only [tableEnsure]
      by_cases hk : k0 = k
      · rw [if_pos hk]
      · rw [if_neg hk]
        simp only [lookupKey]
        by_cases hk' : k0 = k'
        · rw [if_pos hk', if_pos hk']
        · rw [if_neg hk', if_neg hk']
          exact ih

theorem lookupKey_tableSet_self (t : InstanceTable) (k : TypeKey) (i : Nat) (s : SlotState) :
    lookupKey (tableSet t k i s) k = (lookupKey t k).map (fun l => l.set i s) := by
  induction t with
  | nil => simp [lookupKey, tableSet]
  | cons hd tl ih =>
      obtain ⟨k0, l0⟩ := hd
      simp only [tableSet]
      by_cases hk : k0 = k
      · simp [lookupKey, hk]
      · simp only [if_neg hk, lookupKey, if_neg hk, ih]

theorem lookupKey_tableSet_other (t : InstanceTable) (k k' : TypeKey) (i : Nat)
    (s : SlotState) (h : k' ≠ k) :
    lookupKey (tableSet t k i s) k' = lookupKey t k' := by
  induction t with
  | nil => simp [lookupKey, tableSet]
  | cons hd tl ih =>
      obtain ⟨k0, l0⟩ := hd
      simp only [tableSet]
      by_cases hk : k0 = k
      · subst hk
        have : ¬ k0 = k' := fun hh => h hh.symm
        simp only [if_pos rfl, lookupKey]
        rw [if_neg this, if_neg this]
      · simp only [if_neg hk, lookupKey, ih]

theorem tableGet_tableSet_self (t : InstanceTable) (k : TypeKey) (i : Nat) (s : SlotState) :
    tableGet (tableSet t k i s) k i = (tableGet t k i).map (fun _ => s) := by
  rcases hL : lookupKey t k with _ | l
  · simp [tableGet, lookupKey_tableSet_self, hL]
  · simp only [tableGet, lookupKey_tableSet_self, hL, Option.map_some']
    rw [List.get?_set]
    simp

theorem tableGet_tableSet_ne (t : InstanceTable) (k k' : TypeKey) (i j : Nat)
    (s : SlotState) (h : ¬(k' = k ∧ j = i)) :
    tableGet (tableSet t k i s) k' j = tableGet t k' j := by
  by_cases hk : k' = k
  · subst hk
    have hj : j ≠ i := fun hh => h ⟨rfl, hh⟩
    rcases hL : lookupKey t k' with _ | l
    · simp [tableGet, lookupKey_tableSet_self, hL]
    · simp only [tableGet, lookupKey_tableSet_self, hL, Option.map_some']
      rw [List.get?_set_ne _ _ (fun hh => hj hh.symm)]
  · simp only [tableGet, lookupKey_tableSet_other t k k' i s hk]


theorem tableGet_tableEnsure_self (t : InstanceTable) (k : TypeKey) (n i : Nat) :
    tableGet (tableEnsure t k n) k i =
      (match lookupKey t k with
       | some l => l.get? i
       | none => if i < n then some SlotState.empty else none) := by
  rcases hL : lookupKey t k with _ | l
  · simp only [tableGet, lookupKey_tableEnsure_self_absent t k n hL, replicate_get?]
  · rw [tableEnsure_present t k n l hL]
    simp [tableGet, hL]

theorem tableGet_tableEnsure_other (t : InstanceTable) (k k' : TypeKey) (n i : Nat)
    (h : k' ≠ k) : tableGet (tableEnsure t k n) k' i = tableGet t k' i := by
  simp [tableGet, lookupKey_tableEnsure_other t k k' n h]

theorem liveCount_tableEnsure (t : InstanceTable) (k : TypeKey) (n : Nat)
    (k' : TypeKey) (i : Nat) :
    liveCount (tableGet (tableEnsure t k n) k' i) = liveCount (tableGet t k' i) := by
  by_cases hk : k' = k
  · subst hk
    rw [tableGet_tableEnsure_self]
    rcases hL : lookupKey t k' with _ | l
    · simp only [tableGet, hL]
      split <;> rfl
    · simp [tableGet, hL]
  · rw [tableGet_tableEnsure_other t k k' n i hk]

theorem tableGet_tableEnsure_ready (t : InstanceTable) (k : TypeKey) (n : Nat)
    (k' : TypeKey) (i : Nat) (s : SlotState)
    (h : tableGet t k' i = some s) :
    tableGet (tableEnsure t k n) k' i = some s := by
  by_cases hk : k' = k
  · subst hk
    rw [tableGet_tableEnsure_self]
    rcases hL : lookupKey t k' with _ | l
    · simp [tableGet, hL] at h
    · simp only [tableGet, hL] at h
      simpa [tableGet, hL] using h
  · rw [tableGet_tableEnsure_other t k k' n i hk, h]

theorem getOwnerData_set_self (st : St) (o : Owner) (d0 d : OwnerData)
    (h : getOwnerData st o = some d0) :
    getOwnerData (setOwnerData st o d) o = some d := by
  cases o with
  | root => rfl
  | scope sid =>
      simp only [getOwnerData, setOwnerData] at *
      have hlt : sid < st.scopes.length := by
        by_contra hge
        rw [List.get?_eq_none.mpr (by omega)] at h
        exact absurd h (by simp)
      rw [List.get?_set _ _]
      simp [List.get?_eq_none, hlt]

theorem getOwnerData_set_other (st : St) (o o' : Owner) (d : OwnerData)
    (h : o' ≠ o) : getOwnerData (setOwnerData st o d) o' = getOwnerData st o' := by
  cases o with
  | root =>
      cases o' with
      | root => exact absurd rfl h
      | scope sid => rfl
  | scope sid =>
      cases o' with
      | root => rfl
      | scope sid' =>
          simp only [getOwnerData, setOwnerData]
          have hne : sid ≠ sid' := fun hh => h (by rw [hh])
          exact List.get?_set_ne _ _ hne

theorem setOwnerData_nextId (st : St) (o : Owner) (d : OwnerData) :
    (setOwnerData st o d).nextId = st.nextId := by cases o <;> rfl

theorem setOwnerData_invoked (st : St) (o : Owner) (d : OwnerData) :
    (setOwnerData st o d).invoked = st.invoked := by cases o <;> rfl

theorem setOwnerData_resolved (st : St) (o : Owner) (d : OwnerData) :
    (setOwnerData st o d).resolved = st.resolved := by cases o <;> rfl

theorem setOwnerData_constructed (st : St) (o : Owner) (d : OwnerData) :
    (setOwnerData st o d).constructed = st.constructed := by cases o <;> rfl

theorem setOwnerData_scopes_length (st : St) (o : Owner) (d : OwnerData) :
    (setOwnerData st o d).scopes.length = st.scopes.length := by
  cases o with
  | root => rfl
  | scope sid => simp [setOwnerData]

theorem slotAt_set_other (st : St) (o o' : Owner) (d : OwnerData) (k : TypeKey) (i : Nat)
    (h : o' ≠ o) : slotAt (setOwnerData st o d) o' k i = slotAt st o' k i := by
  simp [slotAt, getOwnerData_set_other st o o' d h]

theorem slotAt_set_self (st : St) (o : Owner) (d0 d : OwnerData) (k : TypeKey) (i : Nat)
    (h : getOwnerData st o = some d0) :
    slotAt (setOwnerData st o d) o k i = tableGet d.instances k i := by
  simp [slotAt, getOwnerData_set_self st o d0 d h]

theorem countTriple_append (l1 l2 : List (Owner × TypeKey × Nat)) (t : Owner × TypeKey × Nat) :
    countTriple (l1 ++ l2) t = countTriple l1 t + countTriple l2 t := by
  induction l1 with
  | nil => simp [countTriple]
  | cons e rest ih =>
      simp only [List.cons_append, countTriple]
      rw [show rest.append l2 = rest ++ l2 from rfl, ih]
      omega

theorem getOwnerData_withInvoked (st : St) (x : List (Owner × TypeKey × Nat)) (o : Owner) :
    getOwnerData { st with invoked := x } o = getOwnerData st o := by cases o <;> rfl

theorem getOwnerData_withResolved (st : St) (x : List (Owner × TypeKey × Nat × Value)) (o : Owner) :
    getOwnerData { st with resolved := x } o = getOwnerData st o := by cases o <;> rfl

theorem slotAt_withInvoked (st : St) (x : List (Owner × TypeKey × Nat)) (o : Owner)
    (k : TypeKey) (i : Nat) : slotAt { st with invoked := x } o k i = slotAt st o k i := by
  simp [slotAt, getOwnerData_withInvoked]

theorem slotAt_withResolved (st : St) (x : List (Owner × TypeKey × Nat × Value)) (o : Owner)
    (k : TypeKey) (i : Nat) : slotAt { st with resolved := x } o k i = slotAt st o k i := by
  simp [slotAt, getOwnerData_withResolved]


/-!
## Destructor lemmas
-/

theorem popBackLoop_length_reverse (l : List Value) :
    popBackLoop l.length l = l.reverse := by
  induction l using List.reverseRecOn with
  | nil => simp [popBackLoop]
  | append_singleton l x ih =>
      have hlen : (l ++ [x]).length = l.length + 1 := by simp
      rw [hlen]
      simp only [popBackLoop, List.getLast?_concat, List.dropLast_concat]
      rw [ih]
      simp

/-!
## Characterization lemmas: which descriptor index each entry point selects,
and with which owner and resolution context
-/

theorem getService_root_eq (reg : Registry) (f : Nat) (k : TypeKey)
    (descs : FactoryFunctionCollection) (st : St) (h : lookupKey reg k = some descs) :
    getService reg (f + 1) Owner.root k st
      = resolveIndex reg f k descs Owner.root Owner.root (descs.length - 1) st := by
  simp only [getService, resolveIndex, exec, h]
  rcases hE : exec reg f (Req.help k descs Owner.root Owner.root (descs.length - 1)) st
    with _ | ⟨r, st'⟩
  · simp
  · rcases r with v | vs
    · rcases v with _ | v <;> simp
    · simp

theorem getService_scope_eq (reg : Registry) (f : Nat) (sid : Nat) (k : TypeKey)
    (descs : FactoryFunctionCollection) (d : ServiceDescription) (st : St)
    (h : lookupKey reg k = some descs) (hd : descs.head? = some d) :
    getService reg (f + 1) (Owner.scope sid) k st
      = resolveIndex reg f k descs (scopeOwner sid d) (Owner.scope sid) (descs.length - 1) st := by
  simp only [getService, resolveIndex, exec, h, hd]
  rcases hE : exec reg f (Req.help k descs (scopeOwner sid d)
      (Owner.scope sid) (descs.length - 1)) st with _ | ⟨r, st'⟩
  · simp [hE]
  · rcases r with v | vs
    · rcases v with _ | v <;> simp [hE]
    · simp [hE]

theorem legacyGetService_root_eq (reg : Registry) (f : Nat) (k : TypeKey)
    (descs : FactoryFunctionCollection) (st : LegacySt) (h : lookupKey reg k = some descs) :
    legacyGetService reg (f + 1) Owner.root k st
      = legacyResolveIndex reg f k descs Owner.root Owner.root 0 st := by
  simp only [legacyGetService, legacyResolveIndex, legacyExec, h]
  rcases hE : legacyExec reg f (LReq.help k descs Owner.root Owner.root 0) st with _ | ⟨r, st'⟩
  · simp
  · rcases r with v | vs
    · rcases v with _ | v <;> simp
    · simp

theorem execMulti_length (reg : Registry) :
    ∀ (f : Nat) (o : Owner) (k : TypeKey) (descs : FactoryFunctionCollection) (i : Nat)
      (st : St) (vs : List Value) (st' : St),
      exec reg f (Req.multi o k descs i) st = some (Res.many vs, st') →
      vs.length = descs.length - i := by
  intro f
  induction f with
  | zero => intro o k descs i st vs st' h; simp [exec] at h
  | succ f ih =>
      intro o k descs i st vs st' h
      simp only [exec] at h
      split at h
      · next hg =>
          simp only [Option.some.injEq, Prod.mk.injEq, Res.many.injEq] at h
          obtain ⟨hvs, -⟩ := h
          have hlen : descs.length ≤ i := List.get?_eq_none.mp hg
          subst hvs
          simp only [List.length_nil]
          omega
      · next d hg =>
          split at h
          · next v st1 hE =>
              split at h
              · next vs2 st2 hM =>
                  simp only [Option.some.injEq, Prod.mk.injEq, Res.many.injEq] at h
                  obtain ⟨hvs, -⟩ := h
                  have hi : i < descs.length := by
                    by_contra hge
                    rw [List.get?_eq_none.mpr (by omega)] at hg
                    exact absurd hg (by simp)
                  have hrec := ih o k descs (i + 1) st1 vs2 st2 hM
                  subst hvs
                  simp only [List.length_cons, hrec]
                  omega
              · exact absurd h (by simp)
          · exact absurd h (by simp)

theorem getServices_length (reg : Registry) (f : Nat) (o : Owner) (k : TypeKey)
    (descs : FactoryFunctionCollection) (st : St) (vs : List Value) (st' : St)
    (h : lookupKey reg k = some descs)
    (hS : getServices reg (f + 1) o k st = some (vs, st')) :
    vs.length = descs.length := by
  simp only [getServices, exec, h] at hS
  split at hS
  · next vs2 st2 hM =>
      simp only [Option.some.injEq, Prod.mk.injEq] at hS
      obtain ⟨hvs, -⟩ := hS
      split at hM
      · next vs3 st3 hM2 =>
          simp only [Option.some.injEq, Prod.mk.injEq, Res.many.injEq] at hM
          obtain ⟨hvs3, -⟩ := hM
          have := execMulti_length reg f o k descs 0 st vs3 st3 hM2
          subst hvs3
          subst hvs
          omega
      · exact absurd hM (by simp)
  · exact absurd hS (by simp)

/-!
## Execution postconditions: counter monotonicity, scope stability,
published- and claimed-slot preservation
-/

theorem getOwnerData_withNC (st : St) (n : Nat) (c : List (Value × List Value)) (o : Owner) :
    getOwnerData { st with nextId := n, constructed := c } o = getOwnerData st o := by
  cases o <;> rfl

theorem slotAt_withNC (st : St) (n : Nat) (c : List (Value × List Value)) (o : Owner)
    (k : TypeKey) (i : Nat) :
    slotAt { st with nextId := n, constructed := c } o k i = slotAt st o k i := by
  simp [slotAt, getOwnerData_withNC]

theorem execOk_refl (st : St) : ExecOk st st :=
  ⟨le_refl _, rfl, fun _ _ _ _ h => h, fun _ _ _ h => h⟩

theorem ExecOk.trans {s1 s2 s3 : St} (h1 : ExecOk s1 s2) (h2 : ExecOk s2 s3) : ExecOk s1 s3 :=
  ⟨le_trans h1.1 h2.1, h2.2.1.trans h1.2.1,
   fun o k i v h => h2.2.2.1 o k i v (h1.2.2.1 o k i v h),
   fun o k i h => h2.2.2.2 o k i (h1.2.2.2 o k i h)⟩





theorem claimStep_execOk (st : St) (owner : Owner) (od od1 : OwnerData) (k : TypeKey)
    (n i : Nat) (st2 st3 : St) (od3 : OwnerData) (v : Value) (stF : St)
    (hOD : getOwnerData st owner = some od)
    (hod1 : od1 = { instances := tableEnsure od.instances k n, initOrder := od.initOrder })
    (hSlot : tableGet od1.instances k i = some SlotState.empty)
    (hst2 : st2 = setOwnerData
        { setOwnerData st owner od1 with
            invoked := (setOwnerData st owner od1).invoked ++ [(owner, k, i)] }
        owner { instances := tableSet od1.instances k i SlotState.claimed,
                initOrder := od1.initOrder })
    (hE23 : ExecOk st2 st3)
    (hOD3 : getOwnerData st3 owner = some od3)
    (hstF : stF = { setOwnerData st3 owner
          { instances := tableSet od3.instances k i (SlotState.ready v),
            initOrder := od3.initOrder ++ [v] } with
        resolved := (setOwnerData st3 owner
          { instances := tableSet od3.instances k i (SlotState.ready v),
            initOrder := od3.initOrder ++ [v] }).resolved ++ [(owner, k, i, v)] }) :
    ExecOk st stF := by
  have hSlotE : tableGet (tableEnsure od.instances k n) k i = some SlotState.empty := by
    rw [hod1] at hSlot; exact hSlot
  have hstslot_owner : ∀ k' i', slotAt st owner k' i' = tableGet od.instances k' i' := by
    intro k' i'; simp [slotAt, hOD]
  have hcell : ∀ s, slotAt st owner k i = some s → s = SlotState.empty := by
    intro s hs
    rw [hstslot_owner] at hs
    have h2 := tableGet_tableEnsure_ready od.instances k n k i s hs
    have h3 := hSlotE.symm.trans h2
    exact (Option.some.injEq _ _ ▸ h3).symm
  have hODmid : getOwnerData
      { setOwnerData st owner od1 with
          invoked := (setOwnerData st owner od1).invoked ++ [(owner, k, i)] } owner
      = some od1 := by
    rw [getOwnerData_withInvoked]
    exact getOwnerData_set_self st owner od od1 hOD
  have h2next : st2.nextId = st.nextId := by
    rw [hst2]; simp [setOwnerData_nextId]
  have h2len : st2.scopes.length = st.scopes.length := by
    rw [hst2]; simp [setOwnerData_scopes_length]
  have h2slot_other : ∀ o' k' i', o' ≠ owner → slotAt st2 o' k' i' = slotAt st o' k' i' := by
    intro o' k' i' ho
    rw [hst2, slotAt_set_other _ _ _ _ _ _ ho, slotAt_withInvoked,
        slotAt_set_other _ _ _ _ _ _ ho]
  have h2slot_owner : ∀ k' i', slotAt st2 owner k' i'
      = tableGet (tableSet od1.instances k i SlotState.claimed) k' i' := by
    intro k' i'
    rw [hst2, slotAt_set_self _ _ od1 _ k' i' hODmid]
  have hFnext : stF.nextId = st3.nextId := by
    rw [hstF]; simp [setOwnerData_nextId]
  have hFlen : stF.scopes.length = st3.scopes.length := by
    rw [hstF]; simp [setOwnerData_scopes_length]
  have hFslot_other : ∀ o' k' i', o' ≠ owner → slotAt stF o' k' i' = slotAt st3 o' k' i' := by
    intro o' k' i' ho
    rw [hstF, slotAt_withResolved, slotAt_set_other _ _ _ _ _ _ ho]
  have hFslot_owner : ∀ k' i', slotAt stF owner k' i'
      = tableGet (tableSet od3.instances k i (SlotState.ready v)) k' i' := by
    intro k' i'
    rw [hstF, slotAt_withResolved, slotAt_set_self _ _ od3 _ k' i' hOD3]
  have h3slot_owner : ∀ k' i', slotAt st3 owner k' i' = tableGet od3.instances k' i' := by
    intro k' i'; simp [slotAt, hOD3]
  -- preservation of any non-empty slot value through the whole step
  have hmain : ∀ s, s ≠ SlotState.empty →
      (∀ o' k' i', slotAt st2 o' k' i' = some s → slotAt st3 o' k' i' = some s) →
      ∀ o' k' i', slotAt st o' k' i' = some s → slotAt stF o' k' i' = some s := by
    intro s hs hE o' k' i' hw
    have hne : ¬(o' = owner ∧ k' = k ∧ i' = i) := by
      rintro ⟨rfl, rfl, rfl⟩
      exact hs (hcell s hw)
    have hw2 : slotAt st2 o' k' i' = some s := by
      by_cases ho : o' = owner
      · subst ho
        have hki : ¬(k' = k ∧ i' = i) := fun hh => hne ⟨rfl, hh⟩
        rw [h2slot_owner, tableGet_tableSet_ne _ _ _ _ _ _ hki, hod1]
        rw [hstslot_owner] at hw
        exact tableGet_tableEnsure_ready od.instances k n k' i' s hw
      · rw [h2slot_other o' k' i' ho]; exact hw
    have hw3 : slotAt st3 o' k' i' = some s := hE o' k' i' hw2
    by_cases ho : o' = owner
    · subst ho
      have hki : ¬(k' = k ∧ i' = i) := fun hh => hne ⟨rfl, hh⟩
      rw [hFslot_owner, tableGet_tableSet_ne _ _ _ _ _ _ hki]
      rw [h3slot_owner] at hw3
      exact hw3
    · rw [hFslot_other o' k' i' ho]; exact hw3
  refine ⟨?_, ?_, ?_, ?_⟩
  · rw [hFnext, ← h2next]; exact hE23.1
  · rw [hFlen, hE23.2.1, h2len]
  · intro o' k' i' w hw
    exact hmain (SlotState.ready w) (by simp) (fun a b c hh => hE23.2.2.1 a b c w hh) o' k' i' hw
  · intro o' k' i' hw
    exact hmain SlotState.claimed (by simp) (fun a b c hh => hE23.2.2.2 a b c hh) o' k' i' hw


theorem exec_ok0 (reg : Registry) :
    ∀ (f : Nat) (req : Req) (st : St) (res : Res) (st' : St),
      exec reg f req st = some (res, st') → ExecOk st st' := by
  intro f
  induction f with
  | zero => intro req st res st' h; simp [exec] at h
  | succ f ih =>
      intro req st res st' h
      cases req with
      | get o k =>
          cases o with
          | root =>
              simp only [exec] at h
              split at h
              · simp only [Option.some.injEq, Prod.mk.injEq] at h
                obtain ⟨-, hst⟩ := h
                subst hst
                exact execOk_refl st
              · split at h
                · next v st1 hE =>
                    simp only [Option.some.injEq, Prod.mk.injEq] at h
                    obtain ⟨-, hst⟩ := h
                    subst hst
                    exact ih _ _ _ _ hE
                · exact absurd h (by simp)
          | scope sid =>
              simp only [exec] at h
              split at h
              · simp only [Option.some.injEq, Prod.mk.injEq] at h
                obtain ⟨-, hst⟩ := h
                subst hst
                exact execOk_refl st
              · split at h
                · exact absurd h (by simp)
                · split at h
                  · next v st1 hE =>
                      simp only [Option.some.injEq, Prod.mk.injEq] at h
                      obtain ⟨-, hst⟩ := h
                      subst hst
                      exact ih _ _ _ _ hE
                  · exact absurd h (by simp)
      | gets o k =>
          simp only [exec] at h
          split at h
          · simp only [Option.some.injEq, Prod.mk.injEq] at h
            obtain ⟨-, hst⟩ := h
            subst hst
            exact execOk_refl st
          · split at h
            · next vs st1 hM =>
                simp only [Option.some.injEq, Prod.mk.injEq] at h
                obtain ⟨-, hst⟩ := h
                subst hst
                exact ih _ _ _ _ hM
            · exact absurd h (by simp)
      | multi o k descs i =>
          simp only [exec] at h
          split at h
          · simp only [Option.some.injEq, Prod.mk.injEq] at h
            obtain ⟨-, hst⟩ := h
            subst hst
            exact execOk_refl st
          · split at h
            · next v st1 hE =>
                split at h
                · next vs st2 hM =>
                    simp only [Option.some.injEq, Prod.mk.injEq] at h
                    obtain ⟨-, hst⟩ := h
                    subst hst
                    exact (ih _ _ _ _ hE).trans (ih _ _ _ _ hM)
                · exact absurd h (by simp)
            · exact absurd h (by simp)
      | fact ctx ds =>
          simp only [exec] at h
          split at h
          · next vs stD hD =>
              simp only [Option.some.injEq, Prod.mk.injEq] at h
              obtain ⟨-, hst⟩ := h
              subst hst
              refine (ih _ _ _ _ hD).trans ⟨Nat.le_succ _, Eq.refl _, ?_, ?_⟩
              · intro o k i v hv
                simpa [slotAt_withNC] using hv
              · intro o k i hv
                simpa [slotAt_withNC] using hv
          · exact absurd h (by simp)
      | deps ctx ds =>
          cases ds with
          | nil =>
              simp only [exec, Option.some.injEq, Prod.mk.injEq] at h
              obtain ⟨-, hst⟩ := h
              subst hst
              exact execOk_refl st
          | cons d rest =>
              simp only [exec] at h
              split at h
              · next v st1 hG =>
                  split at h
                  · next vs st2 hD =>
                      simp only [Option.some.injEq, Prod.mk.injEq] at h
                      obtain ⟨-, hst⟩ := h
                      subst hst
                      exact (ih _ _ _ _ hG).trans (ih _ _ _ _ hD)
                  · exact absurd h (by simp)
              · exact absurd h (by simp)
      | help k descs owner ctx i =>
          simp only [exec] at h
          split at h
          · exact absurd h (by simp)
          · next desc hg =>
              split at h
              · -- Transient branch
                split at h
                · next v st1 hF =>
                    simp only [Option.some.injEq, Prod.mk.injEq] at h
                    obtain ⟨-, hst⟩ := h
                    subst hst
                    refine @ExecOk.trans st { st with invoked := st.invoked ++ [(owner, k, i)] } _
                      ⟨le_refl _, Eq.refl _, ?_, ?_⟩ (ih _ _ _ _ hF)
                    · intro o k i v hv
                      simpa [slotAt_withInvoked] using hv
                    · intro o k i hv
                      simpa [slotAt_withInvoked] using hv
                · exact absurd h (by simp)
              · -- cached branch
                split at h
                · exact absurd h (by simp)
                · next od hOD =>
                    split at h
                    · exact absurd h (by simp)
                    · next v hSlot =>
                        simp only [Option.some.injEq, Prod.mk.injEq] at h
                        obtain ⟨-, hst⟩ := h
                        subst hst
                        refine ⟨?_, ?_, ?_, ?_⟩
                        · simp [setOwnerData_nextId]
                        · simp [setOwnerData_scopes_length]
                        · intro o' k' i' w hw
                          rw [slotAt_withResolved]
                          by_cases ho : o' = owner
                          · subst ho
                            rw [slotAt_set_self st o' od _ k' i' hOD]
                            simp only [slotAt, hOD, Option.bind_some] at hw
                            exact tableGet_tableEnsure_ready od.instances k descs.length k' i' _ hw
                          · rw [slotAt_set_other st owner o' _ k' i' ho]
                            exact hw
                        · intro o' k' i' hw
                          rw [slotAt_withResolved]
                          by_cases ho : o' = owner
                          · subst ho
                            rw [slotAt_set_self st o' od _ k' i' hOD]
                            simp only [slotAt, hOD, Option.bind_some] at hw
                            exact tableGet_tableEnsure_ready od.instances k descs.length k' i' _ hw
                          · rw [slotAt_set_other st owner o' _ k' i' ho]
                            exact hw
                    · exact absurd h (by simp)
                    · next hSlot =>
                        split at h
                        · next v st3 hF =>
                            split at h
                            · exact absurd h (by simp)
                            · next od3 hOD3 =>
                                simp only [Option.some.injEq, Prod.mk.injEq] at h
                                obtain ⟨-, hst⟩ := h
                                subst hst
                                exact claimStep_execOk st owner od _ k descs.length i
                                  _ st3 od3 v _ hOD rfl hSlot rfl (ih _ _ _ _ hF) hOD3 rfl
                        · exact absurd h (by simp)


/-!
## Invariant preservation
-/


theorem tableGet_tableEnsure_ready_rev (t : InstanceTable) (k : TypeKey) (n : Nat)
    (k' : TypeKey) (i : Nat) (v : Value)
    (h : tableGet (tableEnsure t k n) k' i = some (SlotState.ready v)) :
    tableGet t k' i = some (SlotState.ready v) := by
  by_cases hk : k' = k
  · subst hk
    rcases hL : lookupKey t k' with _ | l
    · have h2 : tableGet (tableEnsure t k' n) k' i
          = if i < n then some SlotState.empty else none := by
        simp only [tableGet, lookupKey_tableEnsure_self_absent t k' n hL]
        exact replicate_get? n i SlotState.empty
      rw [h2] at h
      split at h <;> simp at h
    · rw [tableEnsure_present t k' n l hL] at h
      exact h
  · rwa [tableGet_tableEnsure_other t k k' n i hk] at h

theorem countTriple_concat (l : List (Owner × TypeKey × Nat)) (e t : Owner × TypeKey × Nat) :
    countTriple (l ++ [e]) t = countTriple l t + (if e = t then 1 else 0) := by
  rw [countTriple_append]
  simp [countTriple]

theorem exec_fact_lt (reg : Registry) (f : Nat) (ctx : Owner) (ds : List TypeKey)
    (st : St) (v : Value) (st' : St)
    (h : exec reg f (Req.fact ctx ds) st = some (Res.one (some v), st')) :
    v < st'.nextId ∧ st.nextId ≤ v := by
  cases f with
  | zero => simp [exec] at h
  | succ f =>
      simp only [exec] at h
      split at h
      · next vs stD hD =>
          simp only [Option.some.injEq, Prod.mk.injEq, Res.one.injEq] at h
          obtain ⟨hv, hst⟩ := h
          have hmono := (exec_ok0 reg f _ _ _ _ hD).1
          subst hst
          cases hv
          constructor
          · simp
          · simpa using hmono
      · exact absurd h (by simp)

theorem claimStep_inv (reg : Registry) (st : St) (owner : Owner) (od od1 : OwnerData)
    (k : TypeKey) (n i : Nat) (st2 st3 : St) (od3 : OwnerData) (v : Value) (stF : St)
    (hOD : getOwnerData st owner = some od)
    (hod1 : od1 = { instances := tableEnsure od.instances k n, initOrder := od.initOrder })
    (hSlot : tableGet od1.instances k i = some SlotState.empty)
    (hst2 : st2 = setOwnerData
        { setOwnerData st owner od1 with
            invoked := (setOwnerData st owner od1).invoked ++ [(owner, k, i)] }
        owner { instances := tableSet od1.instances k i SlotState.claimed,
                initOrder := od1.initOrder })
    (hE23 : ExecOk st2 st3)
    (hI23 : Inv reg st2 → Inv reg st3)
    (hOD3 : getOwnerData st3 owner = some od3)
    (hvlt : v < st3.nextId)
    (hcached : cachedAt reg k i)
    (hstF : stF = { setOwnerData st3 owner
          { instances := tableSet od3.instances k i (SlotState.ready v),
            initOrder := od3.initOrder ++ [v] } with
        resolved := (setOwnerData st3 owner
          { instances := tableSet od3.instances k i (SlotState.ready v),
            initOrder := od3.initOrder ++ [v] }).resolved ++ [(owner, k, i, v)] })
    (hI : Inv reg st) : Inv reg stF := by
  obtain ⟨hI1, hI2, hI3, hI4⟩ := hI
  have hstslot_owner : ∀ k' i', slotAt st owner k' i' = tableGet od.instances k' i' := by
    intro k' i'; simp [slotAt, hOD]
  have hSlotE : tableGet (tableEnsure od.instances k n) k i = some SlotState.empty := by
    rw [hod1] at hSlot; exact hSlot
  have hcell : ∀ s, slotAt st owner k i = some s → s = SlotState.empty := by
    intro s hs
    rw [hstslot_owner] at hs
    have h2 := tableGet_tableEnsure_ready od.instances k n k i s hs
    have h3 := hSlotE.symm.trans h2
    exact (Option.some.injEq _ _ ▸ h3).symm
  have hODmid : getOwnerData
      { setOwnerData st owner od1 with
          invoked := (setOwnerData st owner od1).invoked ++ [(owner, k, i)] } owner
      = some od1 := by
    rw [getOwnerData_withInvoked]
    exact getOwnerData_set_self st owner od od1 hOD
  have h2next : st2.nextId = st.nextId := by
    rw [hst2]; simp [setOwnerData_nextId]
  have h2invoked : st2.invoked = st.invoked ++ [(owner, k, i)] := by
    rw [hst2]; simp [setOwnerData_invoked]
  have h2resolved : st2.resolved = st.resolved := by
    rw [hst2]; simp [setOwnerData_resolved]
  have h2slot_other : ∀ o' k' i', o' ≠ owner → slotAt st2 o' k' i' = slotAt st o' k' i' := by
    intro o' k' i' ho
    rw [hst2, slotAt_set_other _ _ _ _ _ _ ho, slotAt_withInvoked,
        slotAt_set_other _ _ _ _ _ _ ho]
  have h2slot_owner : ∀ k' i', slotAt st2 owner k' i'
      = tableGet (tableSet od1.instances k i SlotState.claimed) k' i' := by
    intro k' i'
    rw [hst2, slotAt_set_self _ _ od1 _ k' i' hODmid]
  have h2slot_our : slotAt st2 owner k i = some SlotState.claimed := by
    rw [h2slot_owner, tableGet_tableSet_self, hSlot]
    rfl
  have h2od : ∀ o' d', getOwnerData st2 o' = some d' →
      ∃ d0, getOwnerData st o' = some d0 ∧ d'.initOrder = d0.initOrder := by
    intro o' d' hd
    by_cases ho : o' = owner
    · subst ho
      rw [hst2, getOwnerData_set_self _ _ od1 _ hODmid] at hd
      cases hd
      refine ⟨od, hOD, ?_⟩
      simp [hod1]
    · rw [hst2, getOwnerData_set_other _ _ _ _ ho, getOwnerData_withInvoked,
          getOwnerData_set_other _ _ _ _ ho] at hd
      exact ⟨d', hd, rfl⟩
  have hInvSt2 : Inv reg st2 := by
    refine ⟨?_, ?_, ?_, ?_⟩
    · intro o' k' i' hc
      rw [h2invoked, countTriple_concat]
      by_cases ht : (owner, k, i) = ((o', k', i') : Owner × TypeKey × Nat)
      · rw [if_pos ht]
        have hts : owner = o' ∧ k = k' ∧ i = i' := by
          simpa [Prod.ext_iff] using ht
        obtain ⟨rfl, rfl, rfl⟩ := hts
        have h0 := hI1 owner k i hc
        have hz : liveCount (slotAt st owner k i) = 0 := by
          rcases hq : slotAt st owner k i with _ | s
          · rfl
          · rw [hcell s hq]
            rfl
        rw [h0, hz, h2slot_our]
        rfl
      · rw [if_neg ht]
        rw [hI1 o' k' i' hc]
        by_cases ho : o' = owner
        · subst ho
          by_cases hki : k' = k ∧ i' = i
          · exact absurd (by rw [hki.1, hki.2]) ht
          · rw [h2slot_owner, tableGet_tableSet_ne _ _ _ _ _ _ hki, hod1,
                hstslot_owner]
            rw [liveCount_tableEnsure od.instances k n k' i']
            omega
        · rw [h2slot_other _ _ _ ho]
          omega
    · intro o' k' i' w hw
      rw [h2resolved] at hw
      have h0 := hI2 o' k' i' w hw
      have hne : ¬(o' = owner ∧ k' = k ∧ i' = i) := by
        rintro ⟨rfl, rfl, rfl⟩
        have := hcell _ h0
        simp at this
      by_cases ho : o' = owner
      · subst ho
        have hki : ¬(k' = k ∧ i' = i) := fun hh => hne ⟨rfl, hh⟩
        rw [h2slot_owner, tableGet_tableSet_ne _ _ _ _ _ _ hki, hod1]
        rw [hstslot_owner] at h0
        exact tableGet_tableEnsure_ready od.instances k n k' i' _ h0
      · rw [h2slot_other _ _ _ ho]
        exact h0
    · intro o' k' i' w hw
      rw [h2next]
      have h0 : slotAt st o' k' i' = some (SlotState.ready w) := by
        by_cases ho : o' = owner
        · subst ho
          by_cases hki : k' = k ∧ i' = i
          · obtain ⟨rfl, rfl⟩ := hki
            rw [h2slot_our] at hw
            exact absurd hw (by simp)
          · rw [h2slot_owner, tableGet_tableSet_ne _ _ _ _ _ _ hki, hod1] at hw
            rw [hstslot_owner]
            exact tableGet_tableEnsure_ready_rev od.instances k n k' i' w hw
        · rw [h2slot_other _ _ _ ho] at hw
          exact hw
      exact hI3 o' k' i' w h0
    · intro o' d' hd vv hvv
      rw [h2next]
      obtain ⟨d0, hd0, hio⟩ := h2od o' d' hd
      rw [hio] at hvv
      exact hI4 o' d0 hd0 vv hvv
  have hInvSt3 := hI23 hInvSt2
  obtain ⟨h3I1, h3I2, h3I3, h3I4⟩ := hInvSt3
  have h3our : slotAt st3 owner k i = some SlotState.claimed :=
    hE23.2.2.2 _ _ _ h2slot_our
  have h3slot_owner : ∀ k' i', slotAt st3 owner k' i' = tableGet od3.instances k' i' := by
    intro k' i'; simp [slotAt, hOD3]
  have h3cell : tableGet od3.instances k i = some SlotState.claimed := by
    rw [← h3slot_owner]; exact h3our
  have hFnext : stF.nextId = st3.nextId := by
    rw [hstF]; simp [setOwnerData_nextId]
  have hFinvoked : stF.invoked = st3.invoked := by
    rw [hstF]; simp [setOwnerData_invoked]
  have hFresolved : stF.resolved = st3.resolved ++ [(owner, k, i, v)] := by
    rw [hstF]; simp [setOwnerData_resolved]
  have hODF : getOwnerData st3 owner = some od3 := hOD3
  have hFslot_other : ∀ o' k' i', o' ≠ owner → slotAt stF o' k' i' = slotAt st3 o' k' i' := by
    intro o' k' i' ho
    rw [hstF, slotAt_withResolved, slotAt_set_other _ _ _ _ _ _ ho]
  have hFslot_owner : ∀ k' i', slotAt stF owner k' i'
      = tableGet (tableSet od3.instances k i (SlotState.ready v)) k' i' := by
    intro k' i'
    rw [hstF, slotAt_withResolved, slotAt_set_self _ _ od3 _ k' i' hOD3]
  have hFour : slotAt stF owner k i = some (SlotState.ready v) := by
    rw [hFslot_owner, tableGet_tableSet_self, h3cell]
    rfl
  have hFod : ∀ o' d', getOwnerData stF o' = some d' →
      (o' = owner ∧ d'.initOrder = od3.initOrder ++ [v]) ∨
      (o' ≠ owner ∧ getOwnerData st3 o' = some d') := by
    intro o' d' hd
    by_cases ho : o' = owner
    · subst ho
      left
      refine ⟨rfl, ?_⟩
      rw [hstF] at hd
      have : getOwnerData ({ setOwnerData st3 o'
          { instances := tableSet od3.instances k i (SlotState.ready v),
            initOrder := od3.initOrder ++ [v] } with
          resolved := (setOwnerData st3 o'
            { instances := tableSet od3.instances k i (SlotState.ready v),
              initOrder := od3.initOrder ++ [v] }).resolved ++ [(o', k, i, v)] }) o'
          = some { instances := tableSet od3.instances k i (SlotState.ready v),
                   initOrder := od3.initOrder ++ [v] } := by
        rw [getOwnerData_withResolved]
        exact getOwnerData_set_self st3 o' od3 _ hOD3
      rw [this] at hd
      cases hd
      rfl
    · right
      refine ⟨ho, ?_⟩
      rw [hstF, getOwnerData_withResolved, getOwnerData_set_other _ _ _ _ ho] at hd
      exact hd
  refine ⟨?_, ?_, ?_, ?_⟩
  · intro o' k' i' hc
    rw [hFinvoked]
    by_cases ht : (owner, k, i) = ((o', k', i') : Owner × TypeKey × Nat)
    · have hts : owner = o' ∧ k = k' ∧ i = i' := by
        simpa [Prod.ext_iff] using ht
      obtain ⟨rfl, rfl, rfl⟩ := hts
      have h0 := h3I1 owner k i hc
      rw [h3our] at h0
      rw [h0, hFour]
      rfl
    · have h0 := h3I1 o' k' i' hc
      rw [h0]
      by_cases ho : o' = owner
      · subst ho
        by_cases hki : k' = k ∧ i' = i
        · exact absurd (by rw [hki.1, hki.2]) ht
        · rw [hFslot_owner, tableGet_tableSet_ne _ _ _ _ _ _ hki, ← h3slot_owner]
      · rw [hFslot_other _ _ _ ho]
  · intro o' k' i' w hw
    rw [hFresolved] at hw
    rcases List.mem_append.mp hw with hw | hw
    · have h0 := h3I2 o' k' i' w hw
      have hne : ¬(o' = owner ∧ k' = k ∧ i' = i) := by
        rintro ⟨rfl, rfl, rfl⟩
        rw [h3our] at h0
        exact absurd h0 (by simp)
      by_cases ho : o' = owner
      · subst ho
        have hki : ¬(k' = k ∧ i' = i) := fun hh => hne ⟨rfl, hh⟩
        rw [hFslot_owner, tableGet_tableSet_ne _ _ _ _ _ _ hki, ← h3slot_owner]
        exact h0
      · rw [hFslot_other _ _ _ ho]
        exact h0
    · have hw2 : o' = owner ∧ k' = k ∧ i' = i ∧ w = v := by
        simpa [Prod.ext_iff] using hw
      obtain ⟨rfl, rfl, rfl, rfl⟩ := hw2
      exact hFour
  · intro o' k' i' w hw
    rw [hFnext]
    by_cases ho : o' = owner
    · subst ho
      by_cases hki : k' = k ∧ i' = i
      · obtain ⟨rfl, rfl⟩ := hki
        rw [hFour] at hw
        have hwv : w = v := by
          have := hw
          simp only [Option.some.injEq, SlotState.ready.injEq] at this
          exact this.symm
        subst hwv
        exact hvlt
      · rw [hFslot_owner, tableGet_tableSet_ne _ _ _ _ _ _ hki, ← h3slot_owner] at hw
        exact h3I3 _ _ _ _ hw
    · rw [hFslot_other _ _ _ ho] at hw
      exact h3I3 _ _ _ _ hw
  · intro o' d' hd vv hvv
    rw [hFnext]
    rcases hFod o' d' hd with ⟨rfl, hio⟩ | ⟨ho, hd3⟩
    · rw [hio] at hvv
      rcases List.mem_append.mp hvv with hvv | hvv
      · exact h3I4 _ od3 hOD3 vv hvv
      · have : vv = v := by simpa using hvv
        subst this
        exact hvlt
    · exact h3I4 o' d' hd3 vv hvv


theorem readyStep_inv (reg : Registry) (st : St) (owner : Owner) (od od1 : OwnerData)
    (k : TypeKey) (n i : Nat) (v : Value) (stF : St)
    (hOD : getOwnerData st owner = some od)
    (hod1 : od1 = { instances := tableEnsure od.instances k n, initOrder := od.initOrder })
    (hSlot : tableGet od1.instances k i = some (SlotState.ready v))
    (hstF : stF = { setOwnerData st owner od1 with
        resolved := (setOwnerData st owner od1).resolved ++ [(owner, k, i, v)] })
    (hI : Inv reg st) : Inv reg stF := by
  obtain ⟨hI1, hI2, hI3, hI4⟩ := hI
  have hstslot_owner : ∀ k' i', slotAt st owner k' i' = tableGet od.instances k' i' := by
    intro k' i'; simp [slotAt, hOD]
  have hODX : getOwnerData (setOwnerData st owner od1) owner = some od1 :=
    getOwnerData_set_self st owner od od1 hOD
  have hFnext : stF.nextId = st.nextId := by
    rw [hstF]; simp [setOwnerData_nextId]
  have hFinvoked : stF.invoked = st.invoked := by
    rw [hstF]; simp [setOwnerData_invoked]
  have hFresolved : stF.resolved = st.resolved ++ [(owner, k, i, v)] := by
    rw [hstF]; simp [setOwnerData_resolved]
  have hFslot_other : ∀ o' k' i', o' ≠ owner → slotAt stF o' k' i' = slotAt st o' k' i' := by
    intro o' k' i' ho
    rw [hstF, slotAt_withResolved, slotAt_set_other _ _ _ _ _ _ ho]
  have hFslot_owner : ∀ k' i', slotAt stF owner k' i' = tableGet od1.instances k' i' := by
    intro k' i'
    rw [hstF, slotAt_withResolved, slotAt_set_self _ _ od _ k' i' hOD]
  have hFod : ∀ o' d', getOwnerData stF o' = some d' →
      ∃ d0, getOwnerData st o' = some d0 ∧ d'.initOrder = d0.initOrder := by
    intro o' d' hd
    by_cases ho : o' = owner
    · subst ho
      rw [hstF, getOwnerData_withResolved, getOwnerData_set_self _ _ od od1 hOD] at hd
      cases hd
      refine ⟨od, hOD, ?_⟩
      simp [hod1]
    · rw [hstF, getOwnerData_withResolved, getOwnerData_set_other _ _ _ _ ho] at hd
      exact ⟨d', hd, rfl⟩
  have hourst : slotAt st owner k i = some (SlotState.ready v) := by
    rw [hstslot_owner]
    refine tableGet_tableEnsure_ready_rev od.instances k n k i v ?_
    have hS2 := hSlot
    rw [hod1] at hS2
    exact hS2
  refine ⟨?_, ?_, ?_, ?_⟩
  · intro o' k' i' hc
    rw [hFinvoked, hI1 o' k' i' hc]
    by_cases ho : o' = owner
    · subst ho
      rw [hFslot_owner, hod1, hstslot_owner]
      rw [liveCount_tableEnsure od.instances k n k' i']
    · rw [hFslot_other _ _ _ ho]
  · intro o' k' i' w hw
    rw [hFresolved] at hw
    rcases List.mem_append.mp hw with hw | hw
    · have h0 := hI2 o' k' i' w hw
      by_cases ho : o' = owner
      · subst ho
        rw [hFslot_owner, hod1]
        rw [hstslot_owner] at h0
        exact tableGet_tableEnsure_ready od.instances k n k' i' _ h0
      · rw [hFslot_other _ _ _ ho]
        exact h0
    · have hw2 : o' = owner ∧ k' = k ∧ i' = i ∧ w = v := by
        simpa [Prod.ext_iff] using hw
      obtain ⟨rfl, rfl, rfl, rfl⟩ := hw2
      rw [hFslot_owner]
      exact hSlot
  · intro o' k' i' w hw
    rw [hFnext]
    refine hI3 o' k' i' w ?_
    by_cases ho : o' = owner
    · subst ho
      rw [hFslot_owner, hod1] at hw
      rw [hstslot_owner]
      exact tableGet_tableEnsure_ready_rev od.instances k n k' i' w hw
    · rw [hFslot_other _ _ _ ho] at hw
      exact hw
  · intro o' d' hd vv hvv
    rw [hFnext]
    obtain ⟨d0, hd0, hio⟩ := hFod o' d' hd
    rw [hio] at hvv
    exact hI4 o' d0 hd0 vv hvv


theorem exec_inv (reg : Registry) :
    ∀ (f : Nat) (req : Req) (st : St) (res : Res) (st' : St),
      exec reg f req st = some (res, st') → ReqWf reg req → Inv reg st → Inv reg st' := by
  intro f
  induction f with
  | zero => intro req st res st' h _ _; simp [exec] at h
  | succ f ih =>
      intro req st res st' h hwf hI
      cases req with
      | get o k =>
          cases o with
          | root =>
              simp only [exec] at h
              split at h
              · simp only [Option.some.injEq, Prod.mk.injEq] at h
                obtain ⟨-, hst⟩ := h
                subst hst
                exact hI
              · next descs hL =>
                  split at h
                  · next v st1 hE =>
                      simp only [Option.some.injEq, Prod.mk.injEq] at h
                      obtain ⟨-, hst⟩ := h
                      subst hst
                      exact ih _ _ _ _ hE hL hI
                  · exact absurd h (by simp)
          | scope sid =>
              simp only [exec] at h
              split at h
              · simp only [Option.some.injEq, Prod.mk.injEq] at h
                obtain ⟨-, hst⟩ := h
                subst hst
                exact hI
              · next descs hL =>
                  split at h
                  · exact absurd h (by simp)
                  · split at h
                    · next v st1 hE =>
                        simp only [Option.some.injEq, Prod.mk.injEq] at h
                        obtain ⟨-, hst⟩ := h
                        subst hst
                        exact ih _ _ _ _ hE hL hI
                    · exact absurd h (by simp)
      | gets o k =>
          simp only [exec] at h
          split at h
          · simp only [Option.some.injEq, Prod.mk.injEq] at h
            obtain ⟨-, hst⟩ := h
            subst hst
            exact hI
          · next descs hL =>
              split at h
              · next vs st1 hM =>
                  simp only [Option.some.injEq, Prod.mk.injEq] at h
                  obtain ⟨-, hst⟩ := h
                  subst hst
                  exact ih _ _ _ _ hM hL hI
              · exact absurd h (by simp)
      | multi o k descs i =>
          have hL : lookupKey reg k = some descs := hwf
          simp only [exec] at h
          split at h
          · simp only [Option.some.injEq, Prod.mk.injEq] at h
            obtain ⟨-, hst⟩ := h
            subst hst
            exact hI
          · split at h
            · next v st1 hE =>
                split at h
                · next vs st2 hM =>
                    simp only [Option.some.injEq, Prod.mk.injEq] at h
                    obtain ⟨-, hst⟩ := h
                    subst hst
                    exact ih _ _ _ _ hM hL (ih _ _ _ _ hE hL hI)
                · exact absurd h (by simp)
            · exact absurd h (by simp)
      | fact ctx ds =>
          simp only [exec] at h
          split at h
          · next vs stD hD =>
              simp only [Option.some.injEq, Prod.mk.injEq] at h
              obtain ⟨-, hst⟩ := h
              subst hst
              obtain ⟨hI1, hI2, hI3, hI4⟩ := ih _ _ _ _ hD trivial hI
              refine ⟨?_, ?_, ?_, ?_⟩
              · intro o' k' i' hc
                rw [slotAt_withNC]
                exact hI1 o' k' i' hc
              · intro o' k' i' w hw
                rw [slotAt_withNC]
                exact hI2 o' k' i' w hw
              · intro o' k' i' w hw
                rw [slotAt_withNC] at hw
                have h2 := hI3 o' k' i' w hw
                exact Nat.lt_succ_of_lt h2
              · intro o' d' hd vv hvv
                rw [getOwnerData_withNC] at hd
                have h2 := hI4 o' d' hd vv hvv
                exact Nat.lt_succ_of_lt h2
          · exact absurd h (by simp)
      | deps ctx ds =>
          cases ds with
          | nil =>
              simp only [exec, Option.some.injEq, Prod.mk.injEq] at h
              obtain ⟨-, hst⟩ := h
              subst hst
              exact hI
          | cons d rest =>
              simp only [exec] at h
              split at h
              · next v st1 hG =>
                  split at h
                  · next vs st2 hD =>
                      simp only [Option.some.injEq, Prod.mk.injEq] at h
                      obtain ⟨-, hst⟩ := h
                      subst hst
                      exact ih _ _ _ _ hD trivial (ih _ _ _ _ hG trivial hI)
                  · exact absurd h (by simp)
              · exact absurd h (by simp)
      | help k descs owner ctx i =>
          have hL : lookupKey reg k = some descs := hwf
          simp only [exec] at h
          split at h
          · exact absurd h (by simp)
          · next desc hg =>
              split at h
              · next ht =>
                  split at h
                  · next v st1 hF =>
                      simp only [Option.some.injEq, Prod.mk.injEq] at h
                      obtain ⟨-, hst⟩ := h
                      subst hst
                      refine ih _ _ _ _ hF trivial ?_
                      obtain ⟨hI1, hI2, hI3, hI4⟩ := hI
                      refine ⟨?_, ?_, ?_, ?_⟩
                      · intro o' k' i' hc
                        show countTriple (st.invoked ++ [(owner, k, i)]) (o', k', i')
                            = liveCount (slotAt { st with invoked := st.invoked ++ [(owner, k, i)] } o' k' i')
                        rw [countTriple_concat, slotAt_withInvoked]
                        have hne : ((owner, k, i) : Owner × TypeKey × Nat) ≠ (o', k', i') := by
                          intro heq
                          obtain ⟨descs', desc', hL', hg', hty'⟩ := hc
                          have hks : owner = o' ∧ k = k' ∧ i = i' := by
                            simpa [Prod.ext_iff] using heq
                          obtain ⟨-, hk2, hi2⟩ := hks
                          subst hk2
                          subst hi2
                          rw [hL] at hL'
                          cases hL'
                          rw [hg] at hg'
                          cases hg'
                          exact hty' ht
                        rw [if_neg hne, hI1 o' k' i' hc]
                        omega
                      · intro o' k' i' w hw
                        rw [slotAt_withInvoked]
                        exact hI2 o' k' i' w hw
                      · intro o' k' i' w hw
                        rw [slotAt_withInvoked] at hw
                        exact hI3 o' k' i' w hw
                      · intro o' d' hd vv hvv
                        rw [getOwnerData_withInvoked] at hd
                        exact hI4 o' d' hd vv hvv
                  · exact absurd h (by simp)
              · next ht =>
                  split at h
                  · exact absurd h (by simp)
                  · next od hOD =>
                      split at h
                      · exact absurd h (by simp)
                      · next v hSlot =>
                          simp only [Option.some.injEq, Prod.mk.injEq] at h
                          obtain ⟨-, hst⟩ := h
                          subst hst
                          exact readyStep_inv reg st owner od _ k descs.length i v _
                            hOD rfl hSlot rfl hI
                      · exact absurd h (by simp)
                      · next hSlot =>
                          split at h
                          · next v st3 hF =>
                              split at h
                              · exact absurd h (by simp)
                              · next od3 hOD3 =>
                                  simp only [Option.some.injEq, Prod.mk.injEq] at h
                                  obtain ⟨-, hst⟩ := h
                                  subst hst
                                  exact claimStep_inv reg st owner od _ k descs.length i
                                    _ st3 od3 v _ hOD rfl hSlot rfl
                                    (exec_ok0 reg f _ _ _ _ hF)
                                    (fun hh => ih _ _ _ _ hF trivial hh)
                                    hOD3
                                    (exec_fact_lt reg f ctx desc.deps _ v st3 hF).1
                                    ⟨descs, desc, hL, hg, ht⟩
                                    rfl hI
                          · exact absurd h (by simp)


theorem liveCount_le_one (s : Option SlotState) : liveCount s ≤ 1 := by
  rcases s with _ | s
  · exact Nat.zero_le 1
  · rcases s <;> simp [liveCount]

theorem Inv_initial (reg : Registry) : Inv reg initialSt := by
  refine ⟨?_, ?_, ?_, ?_⟩
  · intro o k i _
    cases o <;> simp [initialSt, slotAt, getOwnerData, tableGet, lookupKey,
      OwnerData.emptyData, countTriple, liveCount]
  · intro o k i v hv
    simp [initialSt] at hv
  · intro o k i v hv
    cases o <;> simp [initialSt, slotAt, getOwnerData, tableGet, lookupKey,
      OwnerData.emptyData] at hv
  · intro o d hd v hv
    cases o with
    | root =>
        simp [initialSt, getOwnerData, OwnerData.emptyData] at hd
        subst hd
        simp at hv
    | scope sid => simp [initialSt, getOwnerData] at hd

theorem slotAt_createScope (st : St) (o : Owner) (k : TypeKey) (i : Nat) :
    slotAt (createScope st).2 o k i = slotAt st o k i := by
  cases o with
  | root => rfl
  | scope sid =>
      simp only [slotAt, createScope, getOwnerData]
      rcases Nat.lt_trichotomy sid st.scopes.length with hlt | heq | hgt
      · rw [List.get?_append hlt]
      · subst heq
        rw [List.get?_concat_length, List.get?_eq_none.mpr (le_refl _)]
        simp [OwnerData.emptyData, tableGet, lookupKey]
      · rw [List.get?_eq_none.mpr (by simp; omega), List.get?_eq_none.mpr (by omega)]

theorem createScope_inv (reg : Registry) (st : St) (hI : Inv reg st) :
    Inv reg (createScope st).2 := by
  obtain ⟨hI1, hI2, hI3, hI4⟩ := hI
  refine ⟨?_, ?_, ?_, ?_⟩
  · intro o k i hc
    rw [slotAt_createScope]
    exact hI1 o k i hc
  · intro o k i v hv
    rw [slotAt_createScope]
    exact hI2 o k i v hv
  · intro o k i v hv
    rw [slotAt_createScope] at hv
    exact hI3 o k i v hv
  · intro o d hd v hv
    cases o with
    | root => exact hI4 Owner.root d hd v hv
    | scope sid =>
        simp only [createScope, getOwnerData] at hd
        rcases Nat.lt_trichotomy sid st.scopes.length with hlt | heq | hgt
        · rw [List.get?_append hlt] at hd
          exact hI4 (Owner.scope sid) d hd v hv
        · subst heq
          rw [List.get?_concat_length] at hd
          cases hd
          simp [OwnerData.emptyData] at hv
        · rw [List.get?_eq_none.mpr (by simp; omega)] at hd
          exact absurd hd (by simp)

theorem runOp_inv (reg : Registry) (fuel : Nat) (op : Op) (st st' : St)
    (h : runOp reg fuel op st = some st') (hI : Inv reg st) : Inv reg st' := by
  cases op with
  | call o k =>
      simp only [runOp, getService] at h
      split at h
      · next v st1 hE =>
          simp only [Option.map_some', Option.some.injEq] at h
          subst h
          exact exec_inv reg fuel _ _ _ _ hE trivial hI
      · exact absurd h (by simp)
  | callAll o k =>
      simp only [runOp, getServices] at h
      split at h
      · next vs st1 hE =>
          simp only [Option.map_some', Option.some.injEq] at h
          subst h
          exact exec_inv reg fuel _ _ _ _ hE trivial hI
      · exact absurd h (by simp)
  | newScope =>
      simp only [runOp, Option.some.injEq] at h
      subst h
      exact createScope_inv reg st hI

theorem runOps_inv (reg : Registry) (fuel : Nat) :
    ∀ (ops : List Op) (st st' : St),
      runOps reg fuel ops st = some st' → Inv reg st → Inv reg st' := by
  intro ops
  induction ops with
  | nil =>
      intro st st' h hI
      simp only [runOps, Option.some.injEq] at h
      subst h
      exact hI
  | cons op rest ih =>
      intro st st' h hI
      simp only [runOps] at h
      rcases hOp : runOp reg fuel op st with _ | st1
      · rw [hOp] at h; exact absurd h (by simp)
      · rw [hOp] at h
        exact ih st1 st' h (runOp_inv reg fuel op st st1 hOp hI)


theorem scopeOwner_ne (sid s : Nat) (d : ServiceDescription) (h : sid ≠ s) :
    scopeOwner sid d ≠ Owner.scope s := by
  unfold scopeOwner
  split
  · intro hh
    injection hh with hh
    exact h hh
  · intro hh
    exact absurd hh (by simp)

theorem multiOwner_ne (o : Owner) (s : Nat) (d : ServiceDescription)
    (h : o ≠ Owner.scope s) : multiOwner o d ≠ Owner.scope s := by
  cases o with
  | root => simp [multiOwner]
  | scope sid =>
      refine scopeOwner_ne sid s d ?_
      intro hh
      exact h (by rw [hh])

/-- A request that never names scope `s` (neither as owner nor as context)
leaves scope `s`'s data untouched. -/
theorem exec_frame (reg : Registry) (s : Nat) :
    ∀ (f : Nat) (req : Req) (st : St) (res : Res) (st' : St),
      exec reg f req st = some (res, st') → ReqAvoids s req →
      getOwnerData st' (Owner.scope s) = getOwnerData st (Owner.scope s) := by
  intro f
  induction f with
  | zero => intro req st res st' h _; simp [exec] at h
  | succ f ih =>
      intro req st res st' h hav
      cases req with
      | get o k =>
          cases o with
          | root =>
              simp only [exec] at h
              split at h
              · simp only [Option.some.injEq, Prod.mk.injEq] at h
                obtain ⟨-, hst⟩ := h
                subst hst
                rfl
              · split at h
                · next v st1 hE =>
                    simp only [Option.some.injEq, Prod.mk.injEq] at h
                    obtain ⟨-, hst⟩ := h
                    subst hst
                    exact ih _ _ _ _ hE ⟨by simp, by simp⟩
                · exact absurd h (by simp)
          | scope sid =>
              simp only [exec] at h
              split at h
              · simp only [Option.some.injEq, Prod.mk.injEq] at h
                obtain ⟨-, hst⟩ := h
                subst hst
                rfl
              · split at h
                · exact absurd h (by simp)
                · next d hd =>
                    split at h
                    · next v st1 hE =>
                        simp only [Option.some.injEq, Prod.mk.injEq] at h
                        obtain ⟨-, hst⟩ := h
                        subst hst
                        exact ih _ _ _ _ hE ⟨scopeOwner_ne sid s d
                          (fun hh => hav (by rw [hh])), hav⟩
                    · exact absurd h (by simp)
      | gets o k =>
          simp only [exec] at h
          split at h
          · simp only [Option.some.injEq, Prod.mk.injEq] at h
            obtain ⟨-, hst⟩ := h
            subst hst
            rfl
          · split at h
            · next vs st1 hM =>
                simp only [Option.some.injEq, Prod.mk.injEq] at h
                obtain ⟨-, hst⟩ := h
                subst hst
                exact ih _ _ _ _ hM hav
            · exact absurd h (by simp)
      | multi o k descs i =>
          simp only [exec] at h
          split at h
          · simp only [Option.some.injEq, Prod.mk.injEq] at h
            obtain ⟨-, hst⟩ := h
            subst hst
            rfl
          · next d hd =>
              split at h
              · next v st1 hE =>
                  split at h
                  · next vs st2 hM =>
                      simp only [Option.some.injEq, Prod.mk.injEq] at h
                      obtain ⟨-, hst⟩ := h
                      subst hst
                      rw [ih _ _ _ _ hM hav, ih _ _ _ _ hE ⟨multiOwner_ne o s d hav, hav⟩]
                  · exact absurd h (by simp)
              · exact absurd h (by simp)
      | fact ctx ds =>
          simp only [exec] at h
          split at h
          · next vs stD hD =>
              simp only [Option.some.injEq, Prod.mk.injEq] at h
              obtain ⟨-, hst⟩ := h
              subst hst
              rw [getOwnerData_withNC]
              exact ih _ _ _ _ hD hav
          · exact absurd h (by simp)
      | deps ctx ds =>
          cases ds with
          | nil =>
              simp only [exec, Option.some.injEq, Prod.mk.injEq] at h
              obtain ⟨-, hst⟩ := h
              subst hst
              rfl
          | cons d rest =>
              simp only [exec] at h
              split at h
              · next v st1 hG =>
                  split at h
                  · next vs st2 hD =>
                      simp only [Option.some.injEq, Prod.mk.injEq] at h
                      obtain ⟨-, hst⟩ := h
                      subst hst
                      rw [ih _ _ _ _ hD hav, ih _ _ _ _ hG hav]
                  · exact absurd h (by simp)
              · exact absurd h (by simp)
      | help k descs owner ctx i =>
          obtain ⟨havO, havC⟩ := hav
          have hOs : Owner.scope s ≠ owner := fun hh => havO hh.symm
          simp only [exec] at h
          split at h
          · exact absurd h (by simp)
          · next desc hg =>
              split at h
              · split at h
                · next v st1 hF =>
                    simp only [Option.some.injEq, Prod.mk.injEq] at h
                    obtain ⟨-, hst⟩ := h
                    subst hst
                    rw [ih _ _ _ _ hF havC, getOwnerData_withInvoked]
                · exact absurd h (by simp)
              · split at h
                · exact absurd h (by simp)
                · next od hOD =>
                    split at h
                    · exact absurd h (by simp)
                    · next v hSlot =>
                        simp only [Option.some.injEq, Prod.mk.injEq] at h
                        obtain ⟨-, hst⟩ := h
                        subst hst
                        rw [getOwnerData_withResolved, getOwnerData_set_other _ _ _ _ hOs]
                    · exact absurd h (by simp)
                    · next hSlot =>
                        split at h
                        · next v st3 hF =>
                            split at h
                            · exact absurd h (by simp)
                            · next od3 hOD3 =>
                                simp only [Option.some.injEq, Prod.mk.injEq] at h
                                obtain ⟨-, hst⟩ := h
                                subst hst
                                rw [getOwnerData_withResolved,
                                    getOwnerData_set_other _ _ _ _ hOs,
                                    ih _ _ _ _ hF havC,
                                    getOwnerData_set_other _ _ _ _ hOs,
                                    getOwnerData_withInvoked,
                                    getOwnerData_set_other _ _ _ _ hOs]
                        · exact absurd h (by simp)


theorem exec_help_post (reg : Registry) (f : Nat) (k : TypeKey)
    (descs : FactoryFunctionCollection) (owner ctx : Owner) (i : Nat)
    (st : St) (res : Res) (st' : St) (desc : ServiceDescription)
    (h : exec reg f (Req.help k descs owner ctx i) st = some (res, st'))
    (hg : descs.get? i = some desc) (ht : desc.type ≠ ServiceType.Transient) :
    ∃ v, res = Res.one (some v) ∧
      slotAt st' owner k i = some (SlotState.ready v) ∧
      ((slotAt st owner k i = none ∨ slotAt st owner k i = some SlotState.empty) →
        st.nextId ≤ v) := by
  cases f with
  | zero => simp [exec] at h
  | succ f =>
      simp only [exec] at h
      split at h
      · next heq =>
          rw [hg] at heq
          exact absurd heq (by simp)
      · next desc2 heq =>
          have hdesc : desc2 = desc := by
            rw [hg] at heq
            exact (Option.some.injEq _ _).mp heq.symm
          subst hdesc
          rw [if_neg ht] at h
          split at h
          · exact absurd h (by simp)
          · next od hOD =>
              split at h
              · exact absurd h (by simp)
              · next v hSlot =>
                  simp only [Option.some.injEq, Prod.mk.injEq] at h
                  obtain ⟨h1, h2⟩ := h
                  subst h2
                  refine ⟨v, h1.symm, ?_, ?_⟩
                  · rw [slotAt_withResolved, slotAt_set_self _ _ od _ k i hOD]
                    exact hSlot
                  · intro hemp
                    exfalso
                    have hrev := tableGet_tableEnsure_ready_rev od.instances k
                      descs.length k i v hSlot
                    have : slotAt st owner k i = some (SlotState.ready v) := by
                      simp [slotAt, hOD, hrev]
                    rcases hemp with hemp | hemp <;> rw [hemp] at this <;> simp at this
              · exact absurd h (by simp)
              · next hSlot =>
                  split at h
                  · next v st3 hF =>
                      split at h
                      · exact absurd h (by simp)
                      · next od3 hOD3 =>
                          simp only [Option.some.injEq, Prod.mk.injEq] at h
                          obtain ⟨h1, h2⟩ := h
                          subst h2
                          have hODmid : getOwnerData
                              { setOwnerData st owner
                                  { instances := tableEnsure od.instances k descs.length,
                                    initOrder := od.initOrder } with
                                invoked := (setOwnerData st owner
                                  { instances := tableEnsure od.instances k descs.length,
                                    initOrder := od.initOrder }).invoked ++ [(owner, k, i)] } owner
                              = some { instances := tableEnsure od.instances k descs.length,
                                       initOrder := od.initOrder } := by
                            rw [getOwnerData_withInvoked]
                            exact getOwnerData_set_self st owner od _ hOD
                          have h2our : slotAt (setOwnerData
                              { setOwnerData st owner
                                  { instances := tableEnsure od.instances k descs.length,
                                    initOrder := od.initOrder } with
                                invoked := (setOwnerData st owner
                                  { instances := tableEnsure od.instances k descs.length,
                                    initOrder := od.initOrder }).invoked ++ [(owner, k, i)] }
                              owner
                              { instances := tableSet (tableEnsure od.instances k descs.length)
                                  k i SlotState.claimed,
                                initOrder := od.initOrder }) owner k i
                              = some SlotState.claimed := by
                            rw [slotAt_set_self _ _ _ _ k i hODmid, tableGet_tableSet_self, hSlot]
                            rfl
                          have h3our := (exec_ok0 reg f _ _ _ _ hF).2.2.2 _ _ _ h2our
                          have h3cell : tableGet od3.instances k i = some SlotState.claimed := by
                            have hh : slotAt st3 owner k i = tableGet od3.instances k i := by
                              simp [slotAt, hOD3]
                            rw [hh] at h3our
                            exact h3our
                          refine ⟨v, h1.symm, ?_, ?_⟩
                          · rw [slotAt_withResolved, slotAt_set_self _ _ od3 _ k i hOD3,
                                tableGet_tableSet_self, h3cell]
                            rfl
                          · intro _
                            have hlt := (exec_fact_lt reg f ctx _ _ v st3 hF).2
                            simpa [setOwnerData_nextId] using hlt
                  · exact absurd h (by simp)


theorem getService_root_elim (reg : Registry) (f : Nat) (k : TypeKey)
    (descs : FactoryFunctionCollection) (st : St) (v : Value) (st' : St)
    (hL : lookupKey reg k = some descs)
    (hG : getService reg f Owner.root k st = some (some v, st')) :
    ∃ f2, f = f2 + 1 ∧ exec reg f2
      (Req.help k descs Owner.root Owner.root (descs.length - 1)) st
      = some (Res.one (some v), st') := by
  cases f with
  | zero => simp [getService, exec] at hG
  | succ f =>
      refine ⟨f, rfl, ?_⟩
      simp only [getService, exec, hL] at hG
      rcases hE : exec reg f (Req.help k descs Owner.root Owner.root (descs.length - 1)) st
        with _ | ⟨r, st2⟩
      · rw [hE] at hG
        simp at hG
      · rw [hE] at hG
        rcases r with v2 | vs
        · rcases v2 with _ | v3
          · simp at hG
          · simp only [Option.some.injEq, Prod.mk.injEq] at hG
            obtain ⟨h1, h2⟩ := hG
            subst h1
            subst h2
            rfl
        · simp at hG

theorem getService_scope_elim (reg : Registry) (f sid : Nat) (k : TypeKey)
    (descs : FactoryFunctionCollection) (dFront : ServiceDescription)
    (st : St) (v : Value) (st' : St)
    (hL : lookupKey reg k = some descs) (hFront : descs.head? = some dFront)
    (hG : getService reg f (Owner.scope sid) k st = some (some v, st')) :
    ∃ f2, f = f2 + 1 ∧ exec reg f2
      (Req.help k descs (scopeOwner sid dFront) (Owner.scope sid) (descs.length - 1)) st
      = some (Res.one (some v), st') := by
  cases f with
  | zero => simp [getService, exec] at hG
  | succ f =>
      refine ⟨f, rfl, ?_⟩
      simp only [getService, exec, hL, hFront] at hG
      rcases hE : exec reg f (Req.help k descs (scopeOwner sid dFront) (Owner.scope sid)
          (descs.length - 1)) st with _ | ⟨r, st2⟩
      · rw [hE] at hG
        simp at hG
      · rw [hE] at hG
        rcases r with v2 | vs
        · rcases v2 with _ | v3
          · simp at hG
          · simp only [Option.some.injEq, Prod.mk.injEq] at hG
            obtain ⟨h1, h2⟩ := hG
            subst h1
            subst h2
            rfl
        · simp at hG


/-!
## Claim theorems (first batch)
-/

/-- Claim C9: every type key present in a built registry holds a non-empty
descriptor list (each registration appends a descriptor right after ensuring
the key's list exists, and nothing removes descriptors), so the descriptor
access at index `size() - 1` performed by single-value lookup never fails for
a key that was found. -/
theorem claim9_registered_keys_nonempty (regs : List (TypeKey × ServiceDescription))
    (k : TypeKey) (descs : FactoryFunctionCollection)
    (h : lookupKey (buildRegistry regs) k = some descs) :
    descs ≠ [] ∧ descs.get? (descs.length - 1) ≠ none := by
  have hmem : (k, descs) ∈ buildRegistry regs := lookupKey_mem _ _ _ h
  have hne : descs ≠ [] :=
    buildRegistry_loop_nonempty regs [] (by simp) (k, descs) hmem
  refine ⟨hne, ?_⟩
  have hlen : 0 < descs.length := List.length_pos.mpr hne
  have hlt : descs.length - 1 < descs.length := by omega
  intro hnone
  rw [List.get?_eq_none] at hnone
  omega

/-- Claim C9 witness: the theorem applied to a concrete one-registration
build. -/
theorem claim9_witness :
    ([⟨[], ServiceType.Singleton⟩] : FactoryFunctionCollection) ≠ [] ∧
    ([⟨[], ServiceType.Singleton⟩] : FactoryFunctionCollection).get?
      (([⟨[], ServiceType.Singleton⟩] : FactoryFunctionCollection).length - 1) ≠ none :=
  claim9_registered_keys_nonempty [(0, ⟨[], ServiceType.Singleton⟩)] 0
    [⟨[], ServiceType.Singleton⟩] (by decide)

/-- Claim C4: draining a completion-order log with the destructor's pop_back
loop tears the logged instances down in exactly the reverse of the order in
which their construction completed; and for the chain of interdependent
Singletons A←B←C←D, under every one of the 24 registration orders, resolving
D constructs ids 0,1,2,3 (A,B,C,D in completion order) and the teardown order
is D,C,B,A. -/
theorem claim4_teardown_reverse :
    (∀ d : OwnerData, destructorTrace d = d.initOrder.reverse) ∧
    ((allPerms chainRegs).all (fun p =>
        decide ((getService (buildRegistry p) 40 Owner.root 3 initialSt).map
          (fun q => (q.1, q.2.rootData.initOrder, destroyTrace q.2.rootData.initOrder))
          = some (some 3, [0, 1, 2, 3], [3, 2, 1, 0]))) = true) := by
  constructor
  · intro d
    exact popBackLoop_length_reverse d.initOrder
  · decide

/-- A transient resolution through the helper is: one factory invocation log
entry, a dependency-resolution run against the context, and a fresh
allocation; nothing else changes. -/
theorem exec_help_transient (reg : Registry) (f : Nat) (k : TypeKey)
    (descs : FactoryFunctionCollection) (owner ctx : Owner) (i : Nat)
    (st : St) (res : Res) (st' : St) (desc : ServiceDescription)
    (h : exec reg f (Req.help k descs owner ctx i) st = some (res, st'))
    (hg : descs.get? i = some desc) (ht : desc.type = ServiceType.Transient) :
    ∃ v fD vs stD, res = Res.one (some v) ∧
      exec reg fD (Req.deps ctx desc.deps)
        { st with invoked := st.invoked ++ [(owner, k, i)] } = some (Res.many vs, stD) ∧
      v = stD.nextId ∧
      st' = { stD with
                nextId := stD.nextId + 1
                constructed := stD.constructed ++ [(stD.nextId, vs)] } := by
  cases f with
  | zero => simp [exec] at h
  | succ f =>
      simp only [exec] at h
      split at h
      · next heq =>
          rw [hg] at heq
          exact absurd heq (by simp)
      · next desc2 heq =>
          have hdesc : desc2 = desc := by
            rw [hg] at heq
            exact (Option.some.injEq _ _).mp heq.symm
          subst hdesc
          rw [if_pos ht] at h
          split at h
          · next v st1 hF =>
              simp only [Option.some.injEq, Prod.mk.injEq] at h
              obtain ⟨h1, h2⟩ := h
              subst h2
              cases f with
              | zero => simp [exec] at hF
              | succ f2 =>
                  simp only [exec] at hF
                  split at hF
                  · next vs stD hD =>
                      simp only [Option.some.injEq, Prod.mk.injEq, Res.one.injEq] at hF
                      obtain ⟨h3, h4⟩ := hF
                      refine ⟨v, f2, vs, stD, h1.symm, hD, ?_, h4.symm⟩
                      simpa using h3.symm
                  · exact absurd hF (by simp)
          · exact absurd h (by simp)

/-- Logging one factory invocation of a Transient descriptor preserves the
invariant. -/
theorem invokedStep_inv (reg : Registry) (st : St) (owner : Owner) (k : TypeKey) (i : Nat)
    (descs : FactoryFunctionCollection) (desc : ServiceDescription)
    (hL : lookupKey reg k = some descs) (hg : descs.get? i = some desc)
    (ht : desc.type = ServiceType.Transient)
    (hI : Inv reg st) : Inv reg { st with invoked := st.invoked ++ [(owner, k, i)] } := by
  obtain ⟨hI1, hI2, hI3, hI4⟩ := hI
  refine ⟨?_, ?_, ?_, ?_⟩
  · intro o' k' i' hc
    show countTriple (st.invoked ++ [(owner, k, i)]) (o', k', i')
        = liveCount (slotAt { st with invoked := st.invoked ++ [(owner, k, i)] } o' k' i')
    rw [countTriple_concat, slotAt_withInvoked]
    have hne : ((owner, k, i) : Owner × TypeKey × Nat) ≠ (o', k', i') := by
      intro heq
      obtain ⟨descs', desc', hL', hg', hty'⟩ := hc
      have hks : owner = o' ∧ k = k' ∧ i = i' := by
        simpa [Prod.ext_iff] using heq
      obtain ⟨-, hk2, hi2⟩ := hks
      subst hk2
      subst hi2
      rw [hL] at hL'
      cases hL'
      rw [hg] at hg'
      cases hg'
      exact hty' ht
    rw [if_neg hne, hI1 o' k' i' hc]
    omega
  · intro o' k' i' w hw
    rw [slotAt_withInvoked]
    exact hI2 o' k' i' w hw
  · intro o' k' i' w hw
    rw [slotAt_withInvoked] at hw
    exact hI3 o' k' i' w hw
  · intro o' d' hd vv hvv
    rw [getOwnerData_withInvoked] at hd
    exact hI4 o' d' hd vv hvv

/-- Facts about a successful transient resolution started from an
invariant-satisfying state: the instance is fresh, it is cached in no slot
and logged in no completion-order log, and a dependency-free factory changes
no owner data at all. -/
theorem help_transient_facts (reg : Registry) (fA : Nat) (k : TypeKey)
    (descs : FactoryFunctionCollection) (dLast : ServiceDescription) (owner ctx : Owner)
    (st0 : St) (v : Value) (st' : St)
    (hInv0 : Inv reg st0)
    (hL : lookupKey reg k = some descs)
    (hLast : descs.get? (descs.length - 1) = some dLast)
    (ht : dLast.type = ServiceType.Transient)
    (hE : exec reg fA (Req.help k descs owner ctx (descs.length - 1)) st0
      = some (Res.one (some v), st')) :
    st0.nextId ≤ v ∧ v < st'.nextId ∧
    (∀ o' k' i', slotAt st' o' k' i' ≠ some (SlotState.ready v)) ∧
    (∀ o' d', getOwnerData st' o' = some d' → v ∉ d'.initOrder) ∧
    (dLast.deps = [] →
      st'.rootData = st0.rootData ∧ st'.scopes = st0.scopes ∧
      st'.invoked = st0.invoked ++ [(owner, k, descs.length - 1)] ∧ v = st0.nextId) := by
  obtain ⟨vx, fD, vs, stD, hres, hD, hv, hst'⟩ :=
    exec_help_transient reg fA k descs owner ctx (descs.length - 1) st0 _ st' dLast
      hE hLast ht
  have hvx : v = vx := by
    simp only [Res.one.injEq, Option.some.injEq] at hres
    exact hres
  subst hvx
  subst hv
  have hInvT := invokedStep_inv reg st0 owner k (descs.length - 1) descs dLast hL hLast ht hInv0
  have hInvD := exec_inv reg fD _ _ _ _ hD trivial hInvT
  have hok := exec_ok0 reg fD _ _ _ _ hD
  have hge : st0.nextId ≤ stD.nextId := by
    have := hok.1
    simpa using this
  refine ⟨hge, ?_, ?_, ?_, ?_⟩
  · rw [hst']
    exact Nat.lt_succ_self _
  · intro o' k' i' hcontra
    rw [hst', slotAt_withNC] at hcontra
    exact absurd (hInvD.2.2.1 o' k' i' _ hcontra) (lt_irrefl _)
  · intro o' d' hd hvv
    rw [hst', getOwnerData_withNC] at hd
    exact absurd (hInvD.2.2.2 o' d' hd _ hvv) (lt_irrefl _)
  · intro hdeps
    rw [hdeps] at hD
    cases fD with
    | zero => simp [exec] at hD
    | succ fD2 =>
        simp only [exec, Option.some.injEq, Prod.mk.injEq, Res.many.injEq] at hD
        obtain ⟨-, hstD⟩ := hD
        rw [hst', ← hstD]
        refine ⟨rfl, rfl, rfl, rfl⟩

/-- Claim C5: for an unregistered type key, single lookup returns the empty
`std::any` (no error), multi lookup returns the empty vector, and
`getRequiredService` reports an error whose message starts with the missing
type's name. -/
theorem claim5_unregistered (reg : Registry) (f : Nat) (o : Owner) (k : TypeKey)
    (typeName : String) (st : St) (h : lookupKey reg k = none) :
    getService reg (f + 1) o k st = some (none, st) ∧
    getServices reg (f + 1) o k st = some ([], st) ∧
    getRequiredService reg (f + 1) o k typeName st =
      some (Except.error
        (typeName ++ " has not been registered as a singleton or scoped service.")) := by
  cases o <;>
    simp [getService, getServices, getRequiredService, exec, h]

/-- Claim C5 witness: the theorem applied at an unregistered key of a
concrete registry. -/
theorem claim5_witness :
    getService regXYZ 31 Owner.root 42 initialSt = some (none, initialSt) ∧
    getServices regXYZ 31 Owner.root 42 initialSt = some ([], initialSt) ∧
    getRequiredService regXYZ 31 Owner.root 42 "Foo" initialSt =
      some (Except.error
        ("Foo" ++ " has not been registered as a singleton or scoped service.")) :=
  claim5_unregistered regXYZ 30 Owner.root 42 "Foo" initialSt (by decide)

/-- Claim C3 counterexample: in `regMixedScopedFirst` the descriptor that
single-value lookup resolves for key 0 (the last one) has Singleton lifetime,
yet two scopes obtain two distinct instances (ids 0 and 1), each cached in
the scope's own table, and nothing is materialized in the root provider's
table — because the scope routes the whole key by its FIRST descriptor's
lifetime, which is Scoped. -/
theorem claim3_counterexample :
    (lookupKey regMixedScopedFirst 0).map (fun l => l.get? (l.length - 1))
      = some (some ⟨[], ServiceType.Singleton⟩) ∧
    (do
      let p1 ← getService regMixedScopedFirst 20 (Owner.scope 0) 0 stTwoScopes
      let p2 ← getService regMixedScopedFirst 20 (Owner.scope 1) 0 p1.2
      pure (p1.1, p2.1, slotAt p2.2 Owner.root 0 1,
            slotAt p2.2 (Owner.scope 0) 0 1, slotAt p2.2 (Owner.scope 1) 0 1))
      = some (some 0, some 1, none,
              some (SlotState.ready 0), some (SlotState.ready 1)) ∧
    ¬ ((0 : Value) = 1) := by
  refine ⟨by decide, by decide, by decide⟩

/-- Claim C8 counterexample: in `regMixedSingletonFirst` the descriptor that
single-value lookup resolves for key 7 (the last one) has Scoped lifetime,
yet a request through a scope materializes it into the ROOT provider's table
(slot index 1 of key 7) and leaves the scope's own table empty — because the
scope routes the whole key by its FIRST descriptor's lifetime, Singleton. -/
theorem claim8_counterexample :
    (lookupKey regMixedSingletonFirst 7).map (fun l => l.get? (l.length - 1))
      = some (some ⟨[], ServiceType.Scoped⟩) ∧
    (getService regMixedSingletonFirst 20 (Owner.scope 0) 7 stOneScope).map
      (fun p => (p.1, slotAt p.2 (Owner.scope 0) 7 1, slotAt p.2 Owner.root 7 1))
      = some (some 0, none, some (SlotState.ready 0)) := by
  refine ⟨by decide, by decide⟩

/-- Claim C6 counterexample: resolving the Transient registration of key 1 in
`regTransientDep` (whose factory depends on the Scoped key 0) changes the root
provider's instance table and completion-order log: the dependency is cached
there.  The claim's words "leaves every owner's instance table and
completion-order log unchanged" are therefore false as stated. -/
theorem claim6_counterexample :
    (lookupKey regTransientDep 1).map (fun l => l.get? (l.length - 1))
      = some (some ⟨[0], ServiceType.Transient⟩) ∧
    (getService regTransientDep 20 Owner.root 1 initialSt).map
      (fun p => (p.1, p.2.rootData.instances, p.2.rootData.initOrder))
      = some (some 1, [(0, [SlotState.ready 0])], [0]) ∧
    ¬ (([(0, [SlotState.ready 0])] : InstanceTable) = initialSt.rootData.instances ∧
       ([0] : List Value) = initialSt.rootData.initOrder) := by
  refine ⟨by decide, by decide, by decide⟩

/-- Claim C10 counterexample: on `regTwoDescs` (key 1 holds two descriptors)
the legacy implementation resolves descriptor index 0 and returns instance 0,
while the current implementation resolves index `size() - 1 = 1` and returns
instance 1: the two implementations do not return equal results, and do not
select the same descriptor index. -/
theorem claim10_counterexample :
    (legacyGetService regTwoDescs 20 Owner.root 1 legacyInitialSt).map Prod.fst
      = some (some 0) ∧
    (getService regTwoDescs 20 Owner.root 1 initialSt).map Prod.fst
      = some (some 1) ∧
    ¬ ((legacyGetService regTwoDescs 20 Owner.root 1 legacyInitialSt).map Prod.fst
        = (getService regTwoDescs 20 Owner.root 1 initialSt).map Prod.fst) := by
  refine ⟨by decide, by decide, by decide⟩

/-- Claim C2: single-value lookup resolves the descriptor at index
`size() - 1` — on the root and (with the front-descriptor routing) on a scope
— and `getServices` resolves all `n` descriptors in registration order.  The
concrete conjunct runs the X, Y, Z scenario on `regXYZ` (key 5): the three
handles come back in registration order (construction order 0, 2, 3 with
dependency lists [], [1], [1, 1] telling X, Y and Z apart), and `getService`
returns the instance of Z, the last one. -/
theorem claim2_selection_rule :
    (∀ (reg : Registry) (f : Nat) (k : TypeKey) (descs : FactoryFunctionCollection) (st : St),
        lookupKey reg k = some descs →
        getService reg (f + 1) Owner.root k st
          = resolveIndex reg f k descs Owner.root Owner.root (descs.length - 1) st) ∧
    (∀ (reg : Registry) (f sid : Nat) (k : TypeKey) (descs : FactoryFunctionCollection)
        (d : ServiceDescription) (st : St),
        lookupKey reg k = some descs → descs.head? = some d →
        getService reg (f + 1) (Owner.scope sid) k st
          = resolveIndex reg f k descs (scopeOwner sid d) (Owner.scope sid)
              (descs.length - 1) st) ∧
    (∀ (reg : Registry) (f : Nat) (o : Owner) (k : TypeKey)
        (descs : FactoryFunctionCollection) (st : St) (vs : List Value) (st' : St),
        lookupKey reg k = some descs →
        getServices reg (f + 1) o k st = some (vs, st') →
        vs.length = descs.length) ∧
    ((do
        let p1 ← getServices regXYZ 30 Owner.root 5 initialSt
        let p2 ← getService regXYZ 30 Owner.root 5 p1.2
        pure (p1.1, p2.1, p2.2.constructed))
      = some ([0, 2, 3], some 3, [(0, []), (1, []), (2, [1]), (3, [1, 1])])) := by
  refine ⟨getService_root_eq, getService_scope_eq, ?_, by decide⟩
  intro reg f o k descs st vs st' h hS
  exact getServices_length reg f o k descs st vs st' h hS

/-- Claim C2 witness: the index characterizations applied to `regXYZ`. -/
theorem claim2_witness :
    getService regXYZ 30 Owner.root 5 initialSt
      = resolveIndex regXYZ 29 5
          [⟨[], ServiceType.Singleton⟩, ⟨[9], ServiceType.Singleton⟩,
           ⟨[9, 9], ServiceType.Singleton⟩] Owner.root Owner.root 2 initialSt ∧
    getService regXYZ 30 (Owner.scope 0) 5 stOneScope
      = resolveIndex regXYZ 29 5
          [⟨[], ServiceType.Singleton⟩, ⟨[9], ServiceType.Singleton⟩,
           ⟨[9, 9], ServiceType.Singleton⟩]
          (scopeOwner 0 ⟨[], ServiceType.Singleton⟩) (Owner.scope 0) 2 stOneScope :=
  ⟨claim2_selection_rule.1 regXYZ 29 5 _ initialSt (by decide),
   claim2_selection_rule.2.1 regXYZ 29 0 5 _ _ stOneScope (by decide) (by decide)⟩

/-- Claim C7: every factory resolves its own dependencies against the
resolution context of the outermost request.  Conjunct 1: a scope passes
ITSELF as the dependency context to the resolution helper even when the
instance is owned by the root.  Conjunct 2: the helper's transient branch
invokes `desc.create` against exactly the context it received.  Conjunct 3:
the P7 scenario on `regP7` — the transient instance built from scope 0 (id 2)
received the scoped dependency 1 and the singleton 0, the one built from
scope 1 (id 4) received the DIFFERENT scoped dependency 3 and the same
singleton 0. -/
theorem claim7_resolution_context :
    (∀ (reg : Registry) (f sid : Nat) (k : TypeKey) (descs : FactoryFunctionCollection)
        (d : ServiceDescription) (st : St),
        lookupKey reg k = some descs → descs.head? = some d →
        getService reg (f + 1) (Owner.scope sid) k st
          = resolveIndex reg f k descs (scopeOwner sid d) (Owner.scope sid)
              (descs.length - 1) st) ∧
    (∀ (reg : Registry) (f : Nat) (k : TypeKey) (descs : FactoryFunctionCollection)
        (owner ctx : Owner) (i : Nat) (st : St) (desc : ServiceDescription),
        descs.get? i = some desc → desc.type = ServiceType.Transient →
        exec reg (f + 1) (Req.help k descs owner ctx i) st
          = (match exec reg f (Req.fact ctx desc.deps)
                     { st with invoked := st.invoked ++ [(owner, k, i)] } with
             | some (Res.one (some v), st') => some (Res.one (some v), st')
             | _ => none)) ∧
    ((do
        let p1 ← getService regP7 30 (Owner.scope 0) 2 stTwoScopes
        let p2 ← getService regP7 30 (Owner.scope 1) 2 p1.2
        pure (p1.1, p2.1, p2.2.constructed))
      = some (some 2, some 4,
          [(0, []), (1, [0]), (2, [1, 0]), (3, [0]), (4, [3, 0])])) ∧
    ¬ ((1 : Value) = 3) := by
  refine ⟨getService_scope_eq, ?_, by decide, by decide⟩
  intro reg f k descs owner ctx i st desc hg ht
  simp only [exec, hg, if_pos ht]

/-- Claim C7 witness: the characterizations applied to `regP7`. -/
theorem claim7_witness :
    getService regP7 30 (Owner.scope 0) 2 stTwoScopes
      = resolveIndex regP7 29 2 [⟨[1, 0], ServiceType.Transient⟩]
          (scopeOwner 0 ⟨[1, 0], ServiceType.Transient⟩) (Owner.scope 0) 0 stTwoScopes ∧
    exec regP7 30 (Req.help 2 [⟨[1, 0], ServiceType.Transient⟩]
        (scopeOwner 0 ⟨[1, 0], ServiceType.Transient⟩) (Owner.scope 0) 0) stTwoScopes
      = (match exec regP7 29 (Req.fact (Owner.scope 0) [1, 0])
               { stTwoScopes with invoked := stTwoScopes.invoked
                   ++ [(scopeOwner 0 ⟨[1, 0], ServiceType.Transient⟩, 2, 0)] } with
         | some (Res.one (some v), st') => some (Res.one (some v), st')
         | _ => none) :=
  ⟨claim7_resolution_context.1 regP7 29 0 2 _ _ stTwoScopes (by decide) (by decide),
   claim7_resolution_context.2.1 regP7 29 2 _ _ (Owner.scope 0) 0 stTwoScopes
     ⟨[1, 0], ServiceType.Transient⟩ (by decide) (by decide)⟩

/-- Claim C10 (amended): the legacy single-value `getService` resolves
descriptor index 0 while the current one resolves index `size() - 1`; the two
select the same descriptor exactly for keys holding one descriptor, and on
`regChain3` (every key a single descriptor) they produce the same instance
and the same completion-order log. -/
theorem claim10_amended :
    (∀ (reg : Registry) (f : Nat) (k : TypeKey) (descs : FactoryFunctionCollection)
        (st : LegacySt), lookupKey reg k = some descs →
        legacyGetService reg (f + 1) Owner.root k st
          = legacyResolveIndex reg f k descs Owner.root Owner.root 0 st) ∧
    (∀ (reg : Registry) (f : Nat) (k : TypeKey) (descs : FactoryFunctionCollection)
        (st : St), lookupKey reg k = some descs →
        getService reg (f + 1) Owner.root k st
          = resolveIndex reg f k descs Owner.root Owner.root (descs.length - 1) st) ∧
    (∀ descs : FactoryFunctionCollection, descs.length = 1 → descs.length - 1 = 0) ∧
    ((legacyGetService regChain3 40 Owner.root 2 legacyInitialSt).map
        (fun p => (p.1, p.2.rootData.initOrder)) = some (some 2, [0, 1, 2]) ∧
     (getService regChain3 40 Owner.root 2 initialSt).map
        (fun p => (p.1, p.2.rootData.initOrder)) = some (some 2, [0, 1, 2])) := by
  refine ⟨legacyGetService_root_eq, getService_root_eq, ?_, by decide, by decide⟩
  intro descs h
  omega

/-- Claim C10 witness: both characterizations applied to `regChain3`. -/
theorem claim10_witness :
    legacyGetService regChain3 40 Owner.root 2 legacyInitialSt
      = legacyResolveIndex regChain3 39 2 [⟨[1], ServiceType.Singleton⟩]
          Owner.root Owner.root 0 legacyInitialSt ∧
    getService regChain3 40 Owner.root 2 initialSt
      = resolveIndex regChain3 39 2 [⟨[1], ServiceType.Singleton⟩]
          Owner.root Owner.root 0 initialSt :=
  ⟨claim10_amended.1 regChain3 39 2 _ legacyInitialSt (by decide),
   claim10_amended.2.1 regChain3 39 2 _ initialSt (by decide)⟩

/-- Claim C1: across any successful sequence of getService / getServices /
createScope operations on the built provider, a descriptor with Singleton or
Scoped lifetime has its factory invoked at most once per (owner, type key,
descriptor index) triple, and every resolution of that triple returned the
identical instance. -/
theorem claim1_at_most_once (reg : Registry) (fuel : Nat) (ops : List Op) (st' : St)
    (o : Owner) (k : TypeKey) (i : Nat)
    (descs : FactoryFunctionCollection) (desc : ServiceDescription)
    (hrun : runOps reg fuel ops initialSt = some st')
    (hL : lookupKey reg k = some descs) (hg : descs.get? i = some desc)
    (ht : desc.type = ServiceType.Singleton ∨ desc.type = ServiceType.Scoped) :
    countTriple st'.invoked (o, k, i) ≤ 1 ∧
    (∀ v w, (o, k, i, v) ∈ st'.resolved → (o, k, i, w) ∈ st'.resolved → v = w) := by
  have hInv := runOps_inv reg fuel ops initialSt st' hrun (Inv_initial reg)
  have hc : cachedAt reg k i :=
    ⟨descs, desc, hL, hg, by rcases ht with h | h <;> simp [h]⟩
  obtain ⟨h1, h2, h3, h4⟩ := hInv
  constructor
  · rw [h1 o k i hc]
    exact liveCount_le_one _
  · intro v w hv hw
    have e1 := h2 o k i v hv
    have e2 := h2 o k i w hw
    rw [e1] at e2
    simpa using e2

/-- Claim C1 witness: two getService calls and one getServices call on a
Singleton registration; the factory ran once and both resolutions agree. -/
theorem claim1_witness :
    countTriple ((runOps regC1 10 opsC1 initialSt).getD initialSt).invoked
        (Owner.root, 0, 0) ≤ 1 ∧
    (∀ v w,
        (Owner.root, 0, 0, v) ∈ ((runOps regC1 10 opsC1 initialSt).getD initialSt).resolved →
        (Owner.root, 0, 0, w) ∈ ((runOps regC1 10 opsC1 initialSt).getD initialSt).resolved →
        v = w) :=
  claim1_at_most_once regC1 10 opsC1 _ Owner.root 0 0
    [⟨[], ServiceType.Singleton⟩] ⟨[], ServiceType.Singleton⟩
    (by decide) (by decide) (by decide) (Or.inl rfl)


/-- Claim C8 (amended): a Scoped registration resolved directly on the root
provider is cached in the root provider's own table and repeated direct
requests return the identical instance; resolved through a scope it is cached
in that scope's own table provided the key's FIRST descriptor is Scoped (the
scope routes by the first descriptor's lifetime). -/
theorem claim8_amended (reg : Registry) (k : TypeKey) (descs : FactoryFunctionCollection)
    (dLast : ServiceDescription) (st0 : St)
    (hL : lookupKey reg k = some descs)
    (hLast : descs.get? (descs.length - 1) = some dLast)
    (hty : dLast.type = ServiceType.Scoped) :
    (∀ (f1 : Nat) (v1 : Value) (st1 : St),
      getService reg f1 Owner.root k st0 = some (some v1, st1) →
      slotAt st1 Owner.root k (descs.length - 1) = some (SlotState.ready v1) ∧
      (∀ (f2 : Nat) (v2 : Value) (st2 : St),
        getService reg f2 Owner.root k st1 = some (some v2, st2) → v2 = v1)) ∧
    (∀ (sid f3 : Nat) (dFront : ServiceDescription) (v3 : Value) (st3 : St),
      descs.head? = some dFront → dFront.type = ServiceType.Scoped →
      getService reg f3 (Owner.scope sid) k st0 = some (some v3, st3) →
      slotAt st3 (Owner.scope sid) k (descs.length - 1) = some (SlotState.ready v3)) := by
  have htne : dLast.type ≠ ServiceType.Transient := by rw [hty]; simp
  constructor
  · intro f1 v1 st1 hG1
    obtain ⟨fA, -, hE1⟩ := getService_root_elim reg f1 k descs st0 v1 st1 hL hG1
    obtain ⟨vx, hres, hslot1, -⟩ := exec_help_post reg fA k descs Owner.root Owner.root
      (descs.length - 1) st0 _ st1 dLast hE1 hLast htne
    have hvx : vx = v1 := by
      simp only [Res.one.injEq, Option.some.injEq] at hres
      exact hres.symm
    subst hvx
    refine ⟨hslot1, ?_⟩
    intro f2 v2 st2 hG2
    obtain ⟨fB, -, hE2⟩ := getService_root_elim reg f2 k descs st1 v2 st2 hL hG2
    have hpres := (exec_ok0 reg fB _ _ _ _ hE2).2.2.1 _ _ _ _ hslot1
    obtain ⟨vy, hres2, hslot2, -⟩ := exec_help_post reg fB k descs Owner.root Owner.root
      (descs.length - 1) st1 _ st2 dLast hE2 hLast htne
    have hvy : vy = v2 := by
      simp only [Res.one.injEq, Option.some.injEq] at hres2
      exact hres2.symm
    subst hvy
    rw [hslot2] at hpres
    simpa using hpres
  · intro sid f3 dFront v3 st3 hFront hFty hG3
    obtain ⟨fC, -, hE3⟩ := getService_scope_elim reg f3 sid k descs dFront st0 v3 st3
      hL hFront hG3
    have hOwn : scopeOwner sid dFront = Owner.scope sid := by simp [scopeOwner, hFty]
    rw [hOwn] at hE3
    obtain ⟨vz, hres3, hslot3, -⟩ := exec_help_post reg fC k descs (Owner.scope sid)
      (Owner.scope sid) (descs.length - 1) st0 _ st3 dLast hE3 hLast htne
    have hvz : vz = v3 := by
      simp only [Res.one.injEq, Option.some.injEq] at hres3
      exact hres3.symm
    subst hvz
    exact hslot3


/-- Claim C3 (amended): over any reachable provider state, two distinct scopes
yield distinct instances of a Scoped registration, each cached in its own
scope's table, provided the key's first descriptor is Scoped like the
resolved one; and every scope and the root provider yield the identical
instance of a Singleton registration, materialized in the root provider's
table, provided the key's first descriptor is not Scoped (the scope routes
the key by its first descriptor's lifetime). -/
theorem claim3_amended (reg : Registry) (fuel0 : Nat) (ops : List Op) (st0 : St)
    (k : TypeKey) (descs : FactoryFunctionCollection) (dFront dLast : ServiceDescription)
    (s1 s2 f1 f2 : Nat) (v1 v2 : Value) (st1 st2 : St)
    (hrun : runOps reg fuel0 ops initialSt = some st0)
    (hL : lookupKey reg k = some descs) (hFront : descs.head? = some dFront)
    (hLast : descs.get? (descs.length - 1) = some dLast) :
    (dFront.type = ServiceType.Scoped → dLast.type = ServiceType.Scoped → s1 ≠ s2 →
      (slotAt st0 (Owner.scope s2) k (descs.length - 1) = none ∨
       slotAt st0 (Owner.scope s2) k (descs.length - 1) = some SlotState.empty) →
      getService reg f1 (Owner.scope s1) k st0 = some (some v1, st1) →
      getService reg f2 (Owner.scope s2) k st1 = some (some v2, st2) →
      v1 ≠ v2 ∧
      slotAt st2 (Owner.scope s1) k (descs.length - 1) = some (SlotState.ready v1) ∧
      slotAt st2 (Owner.scope s2) k (descs.length - 1) = some (SlotState.ready v2)) ∧
    (dFront.type ≠ ServiceType.Scoped → dLast.type = ServiceType.Singleton →
      getService reg f1 (Owner.scope s1) k st0 = some (some v1, st1) →
      getService reg f2 (Owner.scope s2) k st1 = some (some v2, st2) →
      v2 = v1 ∧
      slotAt st2 Owner.root k (descs.length - 1) = some (SlotState.ready v1) ∧
      (∀ (f3 : Nat) (v3 : Value) (st3 : St),
        getService reg f3 Owner.root k st2 = some (some v3, st3) → v3 = v1)) := by
  constructor
  · intro hFty hLty hss hempty hG1 hG2
    have htne : dLast.type ≠ ServiceType.Transient := by rw [hLty]; simp
    obtain ⟨fA, -, hE1⟩ := getService_scope_elim reg f1 s1 k descs dFront st0 v1 st1
      hL hFront hG1
    have hOwn1 : scopeOwner s1 dFront = Owner.scope s1 := by simp [scopeOwner, hFty]
    rw [hOwn1] at hE1
    obtain ⟨vx, hres1, hslot1, -⟩ := exec_help_post reg fA k descs (Owner.scope s1)
      (Owner.scope s1) (descs.length - 1) st0 _ st1 dLast hE1 hLast htne
    have hvx : v1 = vx := by
      simp only [Res.one.injEq, Option.some.injEq] at hres1
      exact hres1
    subst hvx
    -- v1 was allocated before st1's counter
    have hInv0 : Inv reg st0 := runOps_inv reg fuel0 ops initialSt st0 hrun (Inv_initial reg)
    have hInv1 : Inv reg st1 := exec_inv reg fA _ st0 _ st1 hE1 hL hInv0
    have hv1lt : v1 < st1.nextId := hInv1.2.2.1 _ _ _ _ hslot1
    -- scope s2 was untouched by the first call
    have hAvO : Owner.scope s1 ≠ Owner.scope s2 := by
      intro hh
      injection hh with hh
      exact hss hh
    have hframe := exec_frame reg s2 fA _ st0 _ st1 hE1 ⟨hAvO, hAvO⟩
    have hslot02 : slotAt st1 (Owner.scope s2) k (descs.length - 1)
        = slotAt st0 (Owner.scope s2) k (descs.length - 1) := by
      simp [slotAt, hframe]
    -- second call
    obtain ⟨fB, -, hE2⟩ := getService_scope_elim reg f2 s2 k descs dFront st1 v2 st2
      hL hFront hG2
    have hOwn2 : scopeOwner s2 dFront = Owner.scope s2 := by simp [scopeOwner, hFty]
    rw [hOwn2] at hE2
    obtain ⟨vy, hres2, hslot2, hfresh2⟩ := exec_help_post reg fB k descs (Owner.scope s2)
      (Owner.scope s2) (descs.length - 1) st1 _ st2 dLast hE2 hLast htne
    have hvy : v2 = vy := by
      simp only [Res.one.injEq, Option.some.injEq] at hres2
      exact hres2
    subst hvy
    have hv2ge : st1.nextId ≤ v2 := by
      refine hfresh2 ?_
      rw [hslot02]
      exact hempty
    refine ⟨Nat.ne_of_lt (Nat.lt_of_lt_of_le hv1lt hv2ge), ?_, hslot2⟩
    exact (exec_ok0 reg fB _ _ _ _ hE2).2.2.1 _ _ _ _ hslot1
  · intro hFty hLty hG1 hG2
    have htne : dLast.type ≠ ServiceType.Transient := by rw [hLty]; simp
    obtain ⟨fA, -, hE1⟩ := getService_scope_elim reg f1 s1 k descs dFront st0 v1 st1
      hL hFront hG1
    have hOwn1 : scopeOwner s1 dFront = Owner.root := by simp [scopeOwner, hFty]
    rw [hOwn1] at hE1
    obtain ⟨vx, hres1, hslot1, -⟩ := exec_help_post reg fA k descs Owner.root
      (Owner.scope s1) (descs.length - 1) st0 _ st1 dLast hE1 hLast htne
    have hvx : v1 = vx := by
      simp only [Res.one.injEq, Option.some.injEq] at hres1
      exact hres1
    subst hvx
    obtain ⟨fB, -, hE2⟩ := getService_scope_elim reg f2 s2 k descs dFront st1 v2 st2
      hL hFront hG2
    have hOwn2 : scopeOwner s2 dFront = Owner.root := by simp [scopeOwner, hFty]
    rw [hOwn2] at hE2
    have hpres := (exec_ok0 reg fB _ _ _ _ hE2).2.2.1 _ _ _ _ hslot1
    obtain ⟨vy, hres2, hslot2, -⟩ := exec_help_post reg fB k descs Owner.root
      (Owner.scope s2) (descs.length - 1) st1 _ st2 dLast hE2 hLast htne
    have hvy : v2 = vy := by
      simp only [Res.one.injEq, Option.some.injEq] at hres2
      exact hres2
    subst hvy
    have hv21 : v2 = v1 := by
      rw [hslot2] at hpres
      simpa using hpres
    refine ⟨hv21, by rw [← hv21] at hpres ⊢; exact hpres, ?_⟩
    intro f3 v3 st3 hG3
    obtain ⟨fC, -, hE3⟩ := getService_root_elim reg f3 k descs st2 v3 st3 hL hG3
    have hpres3 := (exec_ok0 reg fC _ _ _ _ hE3).2.2.1 _ _ _ _ hpres
    obtain ⟨vz, hres3, hslot3, -⟩ := exec_help_post reg fC k descs Owner.root
      Owner.root (descs.length - 1) st2 _ st3 dLast hE3 hLast htne
    have hvz : v3 = vz := by
      simp only [Res.one.injEq, Option.some.injEq] at hres3
      exact hres3
    subst hvz
    rw [hslot3] at hpres3
    simpa using hpres3


theorem claim3_witness :
    ¬ (0 : Value) = 1 ∧
    slotAt stC3b (Owner.scope 0) 0 0 = some (SlotState.ready 0) ∧
    slotAt stC3b (Owner.scope 1) 0 0 = some (SlotState.ready 1) :=
  (claim3_amended regSco 5 [Op.newScope, Op.newScope] stTwoScopes 0
      [⟨[], ServiceType.Scoped⟩] ⟨[], ServiceType.Scoped⟩ ⟨[], ServiceType.Scoped⟩
      0 1 20 20 0 1 stC3a stC3b (by decide) (by decide) (by decide) (by decide)).1
    (by decide) (by decide) (by decide) (by decide) (by decide) (by decide)


theorem claim8_witness :
    slotAt stC8a Owner.root 0 0 = some (SlotState.ready 0) ∧
    (∀ (f2 : Nat) (v2 : Value) (st2 : St),
      getService regSco f2 Owner.root 0 stC8a = some (some v2, st2) → v2 = 0) :=
  (claim8_amended regSco 0 [⟨[], ServiceType.Scoped⟩] ⟨[], ServiceType.Scoped⟩ initialSt
    (by decide) (by decide) (by decide)).1 20 0 stC8a (by decide)


/-- Claim C6 (amended): resolving a Transient registration on the root
provider invokes the factory and returns a freshly allocated instance that is
cached in no slot and logged in no completion-order log; two consecutive
requests return distinct instances; and when the factory has no dependencies
every owner's instance table and completion-order log is left entirely
unchanged.  (When the factory has dependencies, resolving them may populate
tables — the counterexample — so full frame preservation holds only for
dependency-free factories.) -/
theorem claim6_amended (reg : Registry) (fuel0 : Nat) (ops : List Op) (st0 : St)
    (k : TypeKey) (descs : FactoryFunctionCollection) (dLast : ServiceDescription)
    (f1 : Nat) (v : Value) (st' : St)
    (hrun : runOps reg fuel0 ops initialSt = some st0)
    (hL : lookupKey reg k = some descs)
    (hLast : descs.get? (descs.length - 1) = some dLast)
    (ht : dLast.type = ServiceType.Transient)
    (hG : getService reg f1 Owner.root k st0 = some (some v, st')) :
    st0.nextId ≤ v ∧ v < st'.nextId ∧
    (∀ o' k' i', slotAt st' o' k' i' ≠ some (SlotState.ready v)) ∧
    (∀ o' d', getOwnerData st' o' = some d' → v ∉ d'.initOrder) ∧
    (∀ (f2 : Nat) (w : Value) (st2 : St),
      getService reg f2 Owner.root k st' = some (some w, st2) → w ≠ v) ∧
    (dLast.deps = [] →
      st'.rootData = st0.rootData ∧ st'.scopes = st0.scopes ∧
      st'.invoked = st0.invoked ++ [(Owner.root, k, descs.length - 1)] ∧
      v = st0.nextId) := by
  have hInv0 : Inv reg st0 := runOps_inv reg fuel0 ops initialSt st0 hrun (Inv_initial reg)
  obtain ⟨fA, -, hE⟩ := getService_root_elim reg f1 k descs st0 v st' hL hG
  obtain ⟨h1, h2, h3, h4, h5⟩ := help_transient_facts reg fA k descs dLast Owner.root
    Owner.root st0 v st' hInv0 hL hLast ht hE
  refine ⟨h1, h2, h3, h4, ?_, h5⟩
  intro f2 w st2 hG2
  have hInv' : Inv reg st' := exec_inv reg fA _ _ _ _ hE hL hInv0
  obtain ⟨fB, -, hE2⟩ := getService_root_elim reg f2 k descs st' w st2 hL hG2
  obtain ⟨hw1, -, -, -, -⟩ := help_transient_facts reg fB k descs dLast Owner.root
    Owner.root st' w st2 hInv' hL hLast ht hE2
  exact Nat.ne_of_gt (Nat.lt_of_lt_of_le h2 hw1)

/-- Claim C6 witness: one dependency-free Transient resolution from the
freshly built provider. -/
theorem claim6_witness :
    initialSt.nextId ≤ 0 ∧ 0 < stC6.nextId ∧
    (∀ o' k' i', slotAt stC6 o' k' i' ≠ some (SlotState.ready 0)) ∧
    (∀ o' d', getOwnerData stC6 o' = some d' → 0 ∉ d'.initOrder) ∧
    (∀ (f2 : Nat) (w : Value) (st2 : St),
      getService regTransient f2 Owner.root 1 stC6 = some (some w, st2) → w ≠ 0) ∧
    (([] : List TypeKey) = [] →
      stC6.rootData = initialSt.rootData ∧ stC6.scopes = initialSt.scopes ∧
      stC6.invoked = initialSt.invoked ++ [(Owner.root, 1, 0)] ∧
      (0 : Value) = initialSt.nextId) :=
  claim6_amended regTransient 1 [] initialSt 1 [⟨[], ServiceType.Transient⟩]
    ⟨[], ServiceType.Transient⟩ 10 0 stC6
    (by decide) (by decide) (by decide) (by decide) (by decide)
end CppInject
